import Mathlib

/-!
Shallow embedding of the xv6 buffer cache (kernel/bio.c): a hash-bucketed
block cache with a freelist recycle pool.  Slots are indexed by natural
numbers into a flat array (modelling the C array `cache[NBUF]`); each
hash bucket and the freelist are modelled as lists of slot indices
(modelling the intrusive doubly linked lists through prev/next).
Structural-lock behaviour (bucket spinlocks and the freelist spinlock)
is recorded as an event trace alongside each operation's state effect.
The sleeplock on a buffer is modelled by a per-slot `lockHeld` flag
(sequentialised: `acquiresleep` sets it, `releasesleep` clears it, and
`holdingsleep` reads it).  `refcnt` is modelled as a mathematical
integer so that underflow of the C counter is observable as negativity.
-/

set_option autoImplicit false

namespace Bio

/-- NHASH from bio.c: the number of hash buckets. -/
def NHASH : Nat := 13

/-- hash from bio.c: `blockno % NHASH`. -/
def hash (blockno : Nat) : Nat := blockno % NHASH

/-- One buffer slot (struct buf): identity, validity, reference count,
sleeplock state and an opaque content token standing for `data[]`. -/
structure Buf where
  dev : Nat
  blockno : Nat
  valid : Bool
  refcnt : Int
  lockHeld : Bool
  data : Nat
deriving Repr, DecidableEq

instance : Inhabited Buf := ⟨⟨0, 0, false, 0, false, 0⟩⟩

/-- The whole cache state: the slot array `cache[NBUF]`, the 13 bucket
lists (as a function from bucket index to the list of slot indices, list
head first) and the freelist (head first). -/
structure BCache where
  bufs : List Buf
  buckets : Nat → List Nat
  freelist : List Nat

/-- A structural (spin) lock: one of the 13 bucket locks, or the
freelist (recycle pool) lock. -/
inductive LockId where
  | bucket : Nat → LockId
  | pool : LockId
deriving Repr, DecidableEq

def LockId.isBucket : LockId → Bool
  | .bucket _ => true
  | .pool => false

/-- Events recorded while running an operation: structural lock
acquire/release, sleeplock acquire/release on a slot, and calls to the
device collaborator (`virtio_disk_rw`) with the slot's identity and the
content involved. -/
inductive Ev where
  | acq : LockId → Ev
  | rel : LockId → Ev
  | acqSleep : Nat → Ev
  | relSleep : Nat → Ev
  | devRead : Nat → Nat → Nat → Ev
  | devWrite : Nat → Nat → Nat → Nat → Ev
deriving Repr, DecidableEq

/-- Read slot `i` of the cache array (out-of-range reads give the
all-zero buffer, matching C's zero-initialised globals). -/
def getBuf (st : BCache) (i : Nat) : Buf := st.bufs.getD i default

/-- Update slot `i` of the cache array in place. -/
def setBuf (st : BCache) (i : Nat) (f : Buf → Buf) : BCache :=
  { st with bufs := st.bufs.set i (f (st.bufs.getD i default)) }

/-- binit from bio.c: empty buckets, and all NBUF slots pushed one by
one at the freelist head (so slot n-1 ends up first). -/
def binit (n : Nat) : BCache :=
  { bufs := List.replicate n default
    buckets := fun _ => []
    freelist := (List.range n).reverse }

/-- The scan over the target bucket in bget: first slot in the bucket
list whose `dev` and `blockno` match the request. -/
def scanBucket (dev blockno : Nat) (st : BCache) : Option Nat :=
  (st.buckets (hash blockno)).find?
    (fun i => (getBuf st i).dev == dev && (getBuf st i).blockno == blockno)

/-- The scan over the freelist in bget's miss path: first slot in the
freelist with `refcnt == 0`. -/
def takeFree (st : BCache) : Option Nat :=
  st.freelist.find? (fun i => (getBuf st i).refcnt == 0)

/-- bget from bio.c.  Hit: bump `refcnt` under the bucket lock, then
acquire the slot's sleeplock.  Miss: still holding the bucket lock,
acquire the freelist lock, unlink the first free slot, release the
freelist lock, re-key the slot (`dev`, `blockno`, `valid = 0`,
`refcnt = 1`), insert it at the bucket head, release the bucket lock and
acquire the sleeplock.  No free slot: panic "bget: no buffers" (the C
releases the freelist lock just before the panic). -/
def bget (dev blockno : Nat) (st : BCache) :
    Except String (Nat × BCache) × List Ev :=
  let h := hash blockno
  match scanBucket dev blockno st with
  | some i =>
      (Except.ok (i, setBuf st i
          (fun b => { b with refcnt := b.refcnt + 1, lockHeld := true })),
       [Ev.acq (LockId.bucket h), Ev.rel (LockId.bucket h), Ev.acqSleep i])
  | none =>
    match takeFree st with
    | some i =>
        let st1 : BCache := { st with freelist := st.freelist.erase i }
        let st2 := setBuf st1 i
          (fun b => { b with dev := dev, blockno := blockno,
                             valid := false, refcnt := 1 })
        let st3 : BCache := { st2 with
          buckets := Function.update st2.buckets h (i :: st2.buckets h) }
        let st4 := setBuf st3 i (fun b => { b with lockHeld := true })
        (Except.ok (i, st4),
         [Ev.acq (LockId.bucket h), Ev.acq LockId.pool, Ev.rel LockId.pool,
          Ev.rel (LockId.bucket h), Ev.acqSleep i])
    | none =>
        (Except.error "bget: no buffers",
         [Ev.acq (LockId.bucket h), Ev.acq LockId.pool, Ev.rel LockId.pool])

/-- bread from bio.c: bget, then if the slot is not valid, read it from
the device (`disk` is the device collaborator's content) and mark it
valid. -/
def bread (disk : Nat → Nat → Nat) (dev blockno : Nat) (st : BCache) :
    Except String (Nat × BCache) × List Ev :=
  match bget dev blockno st with
  | (Except.error e, tr) => (Except.error e, tr)
  | (Except.ok (i, st1), tr) =>
      if (getBuf st1 i).valid then (Except.ok (i, st1), tr)
      else
        (Except.ok (i, setBuf st1 i
            (fun b => { b with valid := true, data := disk dev blockno })),
         tr ++ [Ev.devRead i dev blockno])

/-- bwrite from bio.c: panic "bwrite" unless the caller holds the
slot's sleeplock; otherwise write the slot's content to the device and
change nothing. -/
def bwrite (i : Nat) (st : BCache) : Except String BCache × List Ev :=
  if (getBuf st i).lockHeld then
    (Except.ok st,
     [Ev.devWrite i (getBuf st i).dev (getBuf st i).blockno (getBuf st i).data])
  else (Except.error "bwrite", [])

/-- brelse from bio.c: panic "brelse" unless the sleeplock is held;
release the sleeplock; under the owning bucket's lock decrement
`refcnt`; if it reached zero, unlink the slot from its bucket and
(under the freelist lock, still holding the bucket lock) push it at the
freelist head. -/
def brelse (i : Nat) (st : BCache) : Except String BCache × List Ev :=
  if (getBuf st i).lockHeld then
    let st1 := setBuf st i (fun b => { b with lockHeld := false })
    let h := hash (getBuf st1 i).blockno
    let st2 := setBuf st1 i (fun b => { b with refcnt := b.refcnt - 1 })
    if (getBuf st2 i).refcnt == 0 then
      let st3 : BCache := { st2 with
        buckets := Function.update st2.buckets h ((st2.buckets h).erase i) }
      let st4 : BCache := { st3 with freelist := i :: st3.freelist }
      (Except.ok st4,
       [Ev.relSleep i, Ev.acq (LockId.bucket h), Ev.acq LockId.pool,
        Ev.rel LockId.pool, Ev.rel (LockId.bucket h)])
    else
      (Except.ok st2,
       [Ev.relSleep i, Ev.acq (LockId.bucket h), Ev.rel (LockId.bucket h)])
  else (Except.error "brelse", [])

/-- Multiset of structural locks currently held, after processing one
event (sleeplock and device events do not touch structural locks). -/
def heldStep (held : List LockId) : Ev → List LockId
  | .acq l => l :: held
  | .rel l => held.erase l
  | _ => held

/-- Structural locks held after a whole event trace. -/
def heldAfter (tr : List Ev) : List LockId := tr.foldl heldStep []

/-- The lock discipline actually present in bio.c, checked at one
instant: at most two structural locks held, at most one of them a
bucket lock, and the pool lock held only while a bucket lock is held
(fixed bucket-then-pool acquisition order). -/
def checkHeld (held : List LockId) : Bool :=
  decide (held.length ≤ 2) &&
  decide ((held.filter LockId.isBucket).length ≤ 1) &&
  (!(held.contains LockId.pool) || held.any LockId.isBucket)

/-- `checkHeld` after every event of the trace, starting from `held`. -/
def disciplinedFrom (held : List LockId) : List Ev → Bool
  | [] => true
  | e :: tr =>
      let held2 := heldStep held e
      checkHeld held2 && disciplinedFrom held2 tr

/-- The whole trace respects the bucket-then-pool lock discipline. -/
def disciplined (tr : List Ev) : Bool := disciplinedFrom [] tr

/-- Largest number of structural locks simultaneously held at any
instant of the trace. -/
def maxHeld (tr : List Ev) : Nat :=
  ((List.range (tr.length + 1)).map
    (fun k => (heldAfter (tr.take k)).length)).foldr max 0

/-- bpin from bio.c: increment `refcnt` under the owning bucket's
lock. -/
def bpin (i : Nat) (st : BCache) : BCache × List Ev :=
  let h := hash (getBuf st i).blockno
  (setBuf st i (fun b => { b with refcnt := b.refcnt + 1 }),
   [Ev.acq (LockId.bucket h), Ev.rel (LockId.bucket h)])

/-- bunpin from bio.c: decrement `refcnt` under the owning bucket's
lock; nothing else. -/
def bunpin (i : Nat) (st : BCache) : BCache × List Ev :=
  let h := hash (getBuf st i).blockno
  (setBuf st i (fun b => { b with refcnt := b.refcnt - 1 }),
   [Ev.acq (LockId.bucket h), Ev.rel (LockId.bucket h)])

/-- One facade call of a client trace: fetch a block, or release, pin,
unpin or flush a slot obtained earlier. -/
inductive Op where
  | read : Nat → Nat → Op
  | rel : Nat → Op
  | pin : Nat → Op
  | unpin : Nat → Op
  | write : Nat → Op
deriving Repr, DecidableEq

/-- Run a list of facade calls in order, propagating a panic. -/
def runOps (disk : Nat → Nat → Nat) : List Op → BCache → Except String BCache
  | [], st => Except.ok st
  | op :: ops, st =>
      match op with
      | .read dev blockno =>
          match (bread disk dev blockno st).1 with
          | Except.ok (_, st1) => runOps disk ops st1
          | Except.error e => Except.error e
      | .rel i =>
          match (brelse i st).1 with
          | Except.ok st1 => runOps disk ops st1
          | Except.error e => Except.error e
      | .pin i => runOps disk ops (bpin i st).1
      | .unpin i => runOps disk ops (bunpin i st).1
      | .write i =>
          match (bwrite i st).1 with
          | Except.ok st1 => runOps disk ops st1
          | Except.error e => Except.error e

/-- Run a sequence of fetches (one per requested (device, block) pair),
keeping the state, propagating a panic. -/
def breadSeq (disk : Nat → Nat → Nat) :
    List (Nat × Nat) → BCache → Except String BCache
  | [], st => Except.ok st
  | p :: ps, st =>
      match (bread disk p.1 p.2 st).1 with
      | Except.ok (_, st1) => breadSeq disk ps st1
      | Except.error e => Except.error e

/-- Whether a run finished without panicking. -/
def exOk {α : Type} : Except String α → Bool
  | Except.ok _ => true
  | Except.error _ => false

/-- The final state of a non-panicking run (junk on a panic). -/
def getSt (r : Except String BCache) : BCache :=
  match r with
  | Except.ok st => st
  | Except.error _ => binit 0

/-- The slot index handed back by a fetch (junk on a panic). -/
def getIdx (r : Except String (Nat × BCache)) : Nat :=
  match r with
  | Except.ok p => p.1
  | Except.error _ => 0

/-- The state handed back by a fetch (junk on a panic). -/
def getIdxSt (r : Except String (Nat × BCache)) : BCache :=
  match r with
  | Except.ok p => p.2
  | Except.error _ => binit 0

/-! ### Basic facts about slot reads and writes -/

theorem getBuf_oob (st : BCache) (i : Nat) (h : st.bufs.length ≤ i) :
    getBuf st i = default := by
  simp [getBuf, List.getD_eq_getElem?_getD, List.getElem?_eq_none h]

theorem length_setBuf (st : BCache) (i : Nat) (f : Buf → Buf) :
    (setBuf st i f).bufs.length = st.bufs.length := by
  simp [setBuf]

theorem buckets_setBuf (st : BCache) (i : Nat) (f : Buf → Buf) :
    (setBuf st i f).buckets = st.buckets := rfl

theorem freelist_setBuf (st : BCache) (i : Nat) (f : Buf → Buf) :
    (setBuf st i f).freelist = st.freelist := rfl

theorem getBuf_setBuf_same (st : BCache) (i : Nat) (f : Buf → Buf)
    (h : i < st.bufs.length) :
    getBuf (setBuf st i f) i = f (getBuf st i) := by
  simp [getBuf, setBuf, List.getD_eq_getElem?_getD, List.getElem?_set_self h]

theorem getBuf_setBuf_ne (st : BCache) (i j : Nat) (f : Buf → Buf)
    (h : j ≠ i) :
    getBuf (setBuf st i f) j = getBuf st j := by
  simp [getBuf, setBuf, List.getD_eq_getElem?_getD,
    List.getElem?_set_ne (Ne.symm h)]

theorem list_set_oob {α : Type} (l : List α) (i : Nat) (a : α)
    (h : l.length ≤ i) : l.set i a = l := by
  induction l generalizing i with
  | nil => rfl
  | cons x xs ih =>
      cases i with
      | zero => simp at h
      | succ n =>
          simp only [List.length_cons, Nat.succ_le_succ_iff] at h
          simp [List.set, ih n h]

/-! ### Occurrence counting across the bucket lists and the freelist -/

/-- Total number of occurrences of slot `i` across the 13 bucket
lists. -/
def bucketSum (st : BCache) (i : Nat) : Nat :=
  ∑ h ∈ Finset.range NHASH, (st.buckets h).count i

/-- Total number of occurrences of slot `i` across every list of the
cache (buckets and freelist together). -/
def totalCount (st : BCache) (i : Nat) : Nat :=
  bucketSum st i + st.freelist.count i

theorem sum_split_one (f : Nat → Nat) (g k : Nat) (hk : k < NHASH)
    (htot : (∑ h ∈ Finset.range NHASH, f h) + g = 1) (hge : 1 ≤ f k) :
    f k = 1 ∧ g = 0 ∧ ∀ h, h ≠ k → h < NHASH → f h = 0 := by
  have hmem : k ∈ Finset.range NHASH := Finset.mem_range.mpr hk
  have h1 : f k ≤ ∑ h ∈ Finset.range NHASH, f h :=
    Finset.single_le_sum (fun _ _ => Nat.zero_le _) hmem
  have h2 : f k + ∑ h ∈ (Finset.range NHASH).erase k, f h
      = ∑ h ∈ Finset.range NHASH, f h :=
    Finset.add_sum_erase _ f hmem
  refine ⟨by omega, by omega, ?_⟩
  intro h hne hlt
  have hz : ∑ x ∈ (Finset.range NHASH).erase k, f x = 0 := by omega
  exact (Finset.sum_eq_zero_iff.mp hz) h
    (Finset.mem_erase.mpr ⟨hne, Finset.mem_range.mpr hlt⟩)

theorem sum_split_free (f : Nat → Nat) (g : Nat)
    (htot : (∑ h ∈ Finset.range NHASH, f h) + g = 1) (hge : 1 ≤ g) :
    g = 1 ∧ ∀ h, h < NHASH → f h = 0 := by
  have hz : ∑ x ∈ Finset.range NHASH, f x = 0 := by omega
  exact ⟨by omega, fun h hlt =>
    (Finset.sum_eq_zero_iff.mp hz) h (Finset.mem_range.mpr hlt)⟩

/-! ### The structural invariant of the cache -/

/-- The invariant maintained by the cache structures under the facade's
calling contract: bucket indices beyond NHASH are unused; every list
member is a real slot and sits in the bucket its block hashes to; every
slot is in exactly one list; freelist slots have a zero reference count
and a free sleeplock; a slot whose sleeplock is held is indexed in its
bucket. -/
structure Inv (st : BCache) : Prop where
  hhigh : ∀ h, NHASH ≤ h → st.buckets h = []
  hmemB : ∀ h i, i ∈ st.buckets h →
    i < st.bufs.length ∧ hash (getBuf st i).blockno = h
  hmemF : ∀ i ∈ st.freelist, i < st.bufs.length
  huniq : ∀ i, i < st.bufs.length → totalCount st i = 1
  hfree : ∀ i ∈ st.freelist,
    (getBuf st i).refcnt = 0 ∧ (getBuf st i).lockHeld = false
  hheld : ∀ i, i < st.bufs.length → (getBuf st i).lockHeld = true →
    i ∈ st.buckets (hash (getBuf st i).blockno)

theorem Inv.bucket_lt {st : BCache} (hi : Inv st) (k i : Nat)
    (h : i ∈ st.buckets k) : k < NHASH := by
  by_contra hk
  have := hi.hhigh k (Nat.le_of_not_lt hk)
  simp [this] at h

/-- A slot found in bucket `k` occurs once there, nowhere else in the
buckets, and not in the freelist. -/
theorem Inv.mem_bucket_counts {st : BCache} (hi : Inv st) (k i : Nat)
    (h : i ∈ st.buckets k) :
    (st.buckets k).count i = 1 ∧ st.freelist.count i = 0 ∧
    ∀ k2, k2 ≠ k → (st.buckets k2).count i = 0 := by
  have hk : k < NHASH := hi.bucket_lt k i h
  have hlt : i < st.bufs.length := (hi.hmemB k i h).1
  have htot := hi.huniq i hlt
  have hge : 1 ≤ (st.buckets k).count i := List.count_pos_iff.mpr h
  have := sum_split_one (fun h2 => (st.buckets h2).count i)
    (st.freelist.count i) k hk htot hge
  refine ⟨this.1, this.2.1, ?_⟩
  intro k2 hne
  by_cases hk2 : k2 < NHASH
  · exact this.2.2 k2 hne hk2
  · simp [hi.hhigh k2 (Nat.le_of_not_lt hk2)]

/-- A slot in the freelist occurs once there and in no bucket. -/
theorem Inv.mem_free_counts {st : BCache} (hi : Inv st) (i : Nat)
    (h : i ∈ st.freelist) :
    st.freelist.count i = 1 ∧ ∀ k, (st.buckets k).count i = 0 := by
  have hlt : i < st.bufs.length := hi.hmemF i h
  have htot := hi.huniq i hlt
  have hge : 1 ≤ st.freelist.count i := List.count_pos_iff.mpr h
  have := sum_split_free (fun h2 => (st.buckets h2).count i)
    (st.freelist.count i) htot hge
  refine ⟨this.1, ?_⟩
  intro k
  by_cases hk : k < NHASH
  · exact this.2 k hk
  · simp [hi.hhigh k (Nat.le_of_not_lt hk)]

theorem Inv.not_mem_free_of_mem_bucket {st : BCache} (hi : Inv st)
    (k i : Nat) (h : i ∈ st.buckets k) : i ∉ st.freelist := by
  have := (hi.mem_bucket_counts k i h).2.1
  exact List.count_eq_zero.mp this

theorem Inv.not_mem_bucket_of_mem_free {st : BCache} (hi : Inv st)
    (i : Nat) (h : i ∈ st.freelist) : ∀ k, i ∉ st.buckets k := by
  intro k
  exact List.count_eq_zero.mp ((hi.mem_free_counts i h).2 k)

/-! ### Characterisation of each operation's effect -/

theorem lt_length_of_lockHeld {st : BCache} {i : Nat}
    (h : (getBuf st i).lockHeld = true) : i < st.bufs.length := by
  by_contra hge
  rw [getBuf_oob st i (Nat.le_of_not_lt hge)] at h
  simp [default] at h

theorem lt_length_of_refcnt_ne {st : BCache} {i : Nat}
    (h : (getBuf st i).refcnt ≠ 0) : i < st.bufs.length := by
  by_contra hge
  rw [getBuf_oob st i (Nat.le_of_not_lt hge)] at h
  simp [default] at h

theorem scanBucket_some {dev bl i : Nat} {st : BCache}
    (h : scanBucket dev bl st = some i) :
    i ∈ st.buckets (hash bl) ∧
    (getBuf st i).dev = dev ∧ (getBuf st i).blockno = bl := by
  have hm := List.mem_of_find?_eq_some h
  have hp := List.find?_some h
  simp only [Bool.and_eq_true, beq_iff_eq] at hp
  exact ⟨hm, hp.1, hp.2⟩

theorem scanBucket_none {dev bl : Nat} {st : BCache}
    (h : scanBucket dev bl st = none) :
    ∀ i ∈ st.buckets (hash bl),
      (getBuf st i).dev ≠ dev ∨ (getBuf st i).blockno ≠ bl := by
  intro i hi
  have := List.find?_eq_none.mp h i hi
  simp only [Bool.and_eq_true, beq_iff_eq, not_and_or] at this
  exact this

theorem takeFree_some {i : Nat} {st : BCache}
    (h : takeFree st = some i) :
    i ∈ st.freelist ∧ (getBuf st i).refcnt = 0 := by
  have hm := List.mem_of_find?_eq_some h
  have hp := List.find?_some h
  simp only [beq_iff_eq] at hp
  exact ⟨hm, hp⟩

theorem takeFree_none {st : BCache} (h : takeFree st = none) :
    ∀ i ∈ st.freelist, (getBuf st i).refcnt ≠ 0 := by
  intro i hi
  have := List.find?_eq_none.mp h i hi
  simpa using this

/-- If every freelist slot has a zero reference count, `takeFree`
returns exactly the freelist head (LIFO reuse). -/
theorem takeFree_head {st : BCache} {i : Nat} {rest : List Nat}
    (hfl : st.freelist = i :: rest) (hz : (getBuf st i).refcnt = 0) :
    takeFree st = some i := by
  simp [takeFree, hfl, List.find?_cons, hz]

theorem bget_hit_eq {dev bl i : Nat} {st : BCache}
    (hs : scanBucket dev bl st = some i) :
    bget dev bl st =
      (Except.ok (i, setBuf st i
          (fun b => { b with refcnt := b.refcnt + 1, lockHeld := true })),
       [Ev.acq (LockId.bucket (hash bl)), Ev.rel (LockId.bucket (hash bl)),
        Ev.acqSleep i]) := by
  simp [bget, hs]

theorem bget_miss_eq {dev bl i : Nat} {st : BCache}
    (hs : scanBucket dev bl st = none) (ht : takeFree st = some i) :
    bget dev bl st =
      (Except.ok (i,
        setBuf
          { setBuf { st with freelist := st.freelist.erase i } i
              (fun b => { b with dev := dev, blockno := bl,
                                 valid := false, refcnt := 1 }) with
            buckets := Function.update st.buckets (hash bl)
              (i :: st.buckets (hash bl)) }
          i (fun b => { b with lockHeld := true })),
       [Ev.acq (LockId.bucket (hash bl)), Ev.acq LockId.pool,
        Ev.rel LockId.pool, Ev.rel (LockId.bucket (hash bl)),
        Ev.acqSleep i]) := by
  simp [bget, hs, ht]
  rfl

theorem bget_exhaust_eq {dev bl : Nat} {st : BCache}
    (hs : scanBucket dev bl st = none) (ht : takeFree st = none) :
    bget dev bl st =
      (Except.error "bget: no buffers",
       [Ev.acq (LockId.bucket (hash bl)), Ev.acq LockId.pool,
        Ev.rel LockId.pool]) := by
  simp [bget, hs, ht]

theorem bget_hit_parts {dev bl i : Nat} {st : BCache}
    (hs : scanBucket dev bl st = some i) (hlt : i < st.bufs.length) :
    (bget dev bl st).1 = Except.ok (i, getIdxSt (bget dev bl st).1) ∧
    (getIdxSt (bget dev bl st).1).buckets = st.buckets ∧
    (getIdxSt (bget dev bl st).1).freelist = st.freelist ∧
    (getIdxSt (bget dev bl st).1).bufs.length = st.bufs.length ∧
    getBuf (getIdxSt (bget dev bl st).1) i =
      { getBuf st i with refcnt := (getBuf st i).refcnt + 1,
                         lockHeld := true } ∧
    ∀ j, j ≠ i → getBuf (getIdxSt (bget dev bl st).1) j = getBuf st j := by
  rw [bget_hit_eq hs]
  refine ⟨rfl, rfl, rfl, length_setBuf st i _, ?_, ?_⟩
  · rw [getIdxSt, getBuf_setBuf_same st i _ hlt]
  · intro j hj
    rw [getIdxSt, getBuf_setBuf_ne st i j _ hj]

theorem bget_miss_parts {dev bl i : Nat} {st : BCache}
    (hs : scanBucket dev bl st = none) (ht : takeFree st = some i)
    (hlt : i < st.bufs.length) :
    (bget dev bl st).1 = Except.ok (i, getIdxSt (bget dev bl st).1) ∧
    (getIdxSt (bget dev bl st).1).buckets =
      Function.update st.buckets (hash bl) (i :: st.buckets (hash bl)) ∧
    (getIdxSt (bget dev bl st).1).freelist = st.freelist.erase i ∧
    (getIdxSt (bget dev bl st).1).bufs.length = st.bufs.length ∧
    getBuf (getIdxSt (bget dev bl st).1) i =
      { dev := dev, blockno := bl, valid := false, refcnt := 1,
        lockHeld := true, data := (getBuf st i).data } ∧
    ∀ j, j ≠ i → getBuf (getIdxSt (bget dev bl st).1) j = getBuf st j := by
  rw [bget_miss_eq hs ht]
  have hlt1 : i < (setBuf { st with freelist := st.freelist.erase i } i
      (fun b => { b with dev := dev, blockno := bl,
                         valid := false, refcnt := 1 })).bufs.length := by
    rw [length_setBuf]
    exact hlt
  refine ⟨rfl, rfl, rfl, ?_, ?_, ?_⟩
  · show (setBuf _ i _).bufs.length = st.bufs.length
    simp [setBuf]
  · show getBuf (setBuf _ i _) i = _
    rw [getBuf_setBuf_same _ i _ (by simpa using hlt1)]
    have : getBuf { setBuf { st with freelist := st.freelist.erase i } i
        (fun b => { b with dev := dev, blockno := bl,
                           valid := false, refcnt := 1 }) with
        buckets := Function.update st.buckets (hash bl)
          (i :: st.buckets (hash bl)) } i =
        getBuf (setBuf { st with freelist := st.freelist.erase i } i
          (fun b => { b with dev := dev, blockno := bl,
                             valid := false, refcnt := 1 })) i := rfl
    rw [this, getBuf_setBuf_same _ i _ (by simpa using hlt)]
    rfl
  · intro j hj
    show getBuf (setBuf _ i _) j = _
    rw [getBuf_setBuf_ne _ i j _ hj]
    have : getBuf { setBuf { st with freelist := st.freelist.erase i } i
        (fun b => { b with dev := dev, blockno := bl,
                           valid := false, refcnt := 1 }) with
        buckets := Function.update st.buckets (hash bl)
          (i :: st.buckets (hash bl)) } j =
        getBuf (setBuf { st with freelist := st.freelist.erase i } i
          (fun b => { b with dev := dev, blockno := bl,
                             valid := false, refcnt := 1 })) j := rfl
    rw [this, getBuf_setBuf_ne _ i j _ hj]
    rfl

theorem brelse_not_held {i : Nat} {st : BCache}
    (h : (getBuf st i).lockHeld = false) :
    brelse i st = (Except.error "brelse", []) := by
  simp [brelse, h]

theorem brelse_zero_eq {i : Nat} {st : BCache}
    (hh : (getBuf st i).lockHeld = true)
    (hz : (getBuf st i).refcnt - 1 = 0) :
    brelse i st =
      (Except.ok { setBuf (setBuf st i (fun b => { b with lockHeld := false }))
            i (fun b => { b with refcnt := b.refcnt - 1 }) with
          buckets := Function.update st.buckets (hash (getBuf st i).blockno)
            ((st.buckets (hash (getBuf st i).blockno)).erase i),
          freelist := i :: st.freelist },
       [Ev.relSleep i, Ev.acq (LockId.bucket (hash (getBuf st i).blockno)),
        Ev.acq LockId.pool, Ev.rel LockId.pool,
        Ev.rel (LockId.bucket (hash (getBuf st i).blockno))]) := by
  have hlt := lt_length_of_lockHeld hh
  have h1 : getBuf (setBuf st i (fun b => { b with lockHeld := false })) i
      = { getBuf st i with lockHeld := false } := getBuf_setBuf_same st i _ hlt
  have hlt1 : i < (setBuf st i
      (fun b => { b with lockHeld := false })).bufs.length := by
    rw [length_setBuf]
    exact hlt
  have h2 : getBuf (setBuf (setBuf st i (fun b => { b with lockHeld := false }))
      i (fun b => { b with refcnt := b.refcnt - 1 })) i
      = { getBuf st i with
            lockHeld := false
            refcnt := (getBuf st i).refcnt - 1 } := by
    rw [getBuf_setBuf_same _ i _ hlt1, h1]
  simp [brelse, hh, h1, h2, hz]
  exact ⟨rfl, rfl⟩

theorem brelse_pos_eq {i : Nat} {st : BCache}
    (hh : (getBuf st i).lockHeld = true)
    (hnz : (getBuf st i).refcnt - 1 ≠ 0) :
    brelse i st =
      (Except.ok (setBuf (setBuf st i (fun b => { b with lockHeld := false }))
          i (fun b => { b with refcnt := b.refcnt - 1 })),
       [Ev.relSleep i, Ev.acq (LockId.bucket (hash (getBuf st i).blockno)),
        Ev.rel (LockId.bucket (hash (getBuf st i).blockno))]) := by
  have hlt := lt_length_of_lockHeld hh
  have h1 : getBuf (setBuf st i (fun b => { b with lockHeld := false })) i
      = { getBuf st i with lockHeld := false } := getBuf_setBuf_same st i _ hlt
  have hlt1 : i < (setBuf st i
      (fun b => { b with lockHeld := false })).bufs.length := by
    rw [length_setBuf]
    exact hlt
  have h2 : getBuf (setBuf (setBuf st i (fun b => { b with lockHeld := false }))
      i (fun b => { b with refcnt := b.refcnt - 1 })) i
      = { getBuf st i with
            lockHeld := false
            refcnt := (getBuf st i).refcnt - 1 } := by
    rw [getBuf_setBuf_same _ i _ hlt1, h1]
  simp [brelse, hh, h1, h2, hnz]

theorem brelse_zero_parts {i : Nat} {st : BCache}
    (hh : (getBuf st i).lockHeld = true)
    (hz : (getBuf st i).refcnt - 1 = 0) :
    (brelse i st).1 = Except.ok (getSt (brelse i st).1) ∧
    (getSt (brelse i st).1).buckets =
      Function.update st.buckets (hash (getBuf st i).blockno)
        ((st.buckets (hash (getBuf st i).blockno)).erase i) ∧
    (getSt (brelse i st).1).freelist = i :: st.freelist ∧
    (getSt (brelse i st).1).bufs.length = st.bufs.length ∧
    getBuf (getSt (brelse i st).1) i =
      { getBuf st i with
          lockHeld := false
          refcnt := (getBuf st i).refcnt - 1 } ∧
    ∀ j, j ≠ i → getBuf (getSt (brelse i st).1) j = getBuf st j := by
  have hlt := lt_length_of_lockHeld hh
  rw [brelse_zero_eq hh hz]
  refine ⟨rfl, rfl, rfl, ?_, ?_, ?_⟩
  · show (setBuf (setBuf st i (fun b => { b with lockHeld := false })) i
        (fun b => { b with refcnt := b.refcnt - 1 })).bufs.length
        = st.bufs.length
    simp [setBuf]
  · show getBuf (setBuf (setBuf st i (fun b => { b with lockHeld := false }))
        i (fun b => { b with refcnt := b.refcnt - 1 })) i = _
    rw [getBuf_setBuf_same _ i _ (by rw [length_setBuf]; exact hlt),
      getBuf_setBuf_same st i _ hlt]
  · intro j hj
    show getBuf (setBuf (setBuf st i (fun b => { b with lockHeld := false }))
        i (fun b => { b with refcnt := b.refcnt - 1 })) j = _
    rw [getBuf_setBuf_ne _ i j _ hj, getBuf_setBuf_ne st i j _ hj]

theorem brelse_pos_parts {i : Nat} {st : BCache}
    (hh : (getBuf st i).lockHeld = true)
    (hnz : (getBuf st i).refcnt - 1 ≠ 0) :
    (brelse i st).1 = Except.ok (getSt (brelse i st).1) ∧
    (getSt (brelse i st).1).buckets = st.buckets ∧
    (getSt (brelse i st).1).freelist = st.freelist ∧
    (getSt (brelse i st).1).bufs.length = st.bufs.length ∧
    getBuf (getSt (brelse i st).1) i =
      { getBuf st i with
          lockHeld := false
          refcnt := (getBuf st i).refcnt - 1 } ∧
    ∀ j, j ≠ i → getBuf (getSt (brelse i st).1) j = getBuf st j := by
  have hlt := lt_length_of_lockHeld hh
  rw [brelse_pos_eq hh hnz]
  refine ⟨rfl, rfl, rfl, ?_, ?_, ?_⟩
  · show (setBuf (setBuf st i (fun b => { b with lockHeld := false })) i
        (fun b => { b with refcnt := b.refcnt - 1 })).bufs.length
        = st.bufs.length
    simp [setBuf]
  · show getBuf (setBuf (setBuf st i (fun b => { b with lockHeld := false }))
        i (fun b => { b with refcnt := b.refcnt - 1 })) i = _
    rw [getBuf_setBuf_same _ i _ (by rw [length_setBuf]; exact hlt),
      getBuf_setBuf_same st i _ hlt]
  · intro j hj
    show getBuf (setBuf (setBuf st i (fun b => { b with lockHeld := false }))
        i (fun b => { b with refcnt := b.refcnt - 1 })) j = _
    rw [getBuf_setBuf_ne _ i j _ hj, getBuf_setBuf_ne st i j _ hj]

theorem bpin_parts (i : Nat) (st : BCache) (hlt : i < st.bufs.length) :
    (bpin i st).1.buckets = st.buckets ∧
    (bpin i st).1.freelist = st.freelist ∧
    (bpin i st).1.bufs.length = st.bufs.length ∧
    getBuf (bpin i st).1 i =
      { getBuf st i with refcnt := (getBuf st i).refcnt + 1 } ∧
    ∀ j, j ≠ i → getBuf (bpin i st).1 j = getBuf st j := by
  refine ⟨rfl, rfl, length_setBuf st i _, getBuf_setBuf_same st i _ hlt, ?_⟩
  intro j hj
  exact getBuf_setBuf_ne st i j _ hj

theorem bunpin_parts (i : Nat) (st : BCache) (hlt : i < st.bufs.length) :
    (bunpin i st).1.buckets = st.buckets ∧
    (bunpin i st).1.freelist = st.freelist ∧
    (bunpin i st).1.bufs.length = st.bufs.length ∧
    getBuf (bunpin i st).1 i =
      { getBuf st i with refcnt := (getBuf st i).refcnt - 1 } ∧
    ∀ j, j ≠ i → getBuf (bunpin i st).1 j = getBuf st j := by
  refine ⟨rfl, rfl, length_setBuf st i _, getBuf_setBuf_same st i _ hlt, ?_⟩
  intro j hj
  exact getBuf_setBuf_ne st i j _ hj

theorem bread_eq_of_bget {disk : Nat → Nat → Nat} {dev bl i : Nat}
    {st st1 : BCache} (hb : (bget dev bl st).1 = Except.ok (i, st1)) :
    bread disk dev bl st =
      (if (getBuf st1 i).valid
       then (Except.ok (i, st1), (bget dev bl st).2)
       else (Except.ok (i, setBuf st1 i
               (fun b => { b with valid := true, data := disk dev bl })),
             (bget dev bl st).2 ++ [Ev.devRead i dev bl])) := by
  cases hbg : bget dev bl st with
  | mk r tr =>
      rw [hbg] at hb
      simp only at hb
      subst hb
      simp [bread, hbg]

theorem bread_err_of_bget {disk : Nat → Nat → Nat} {dev bl : Nat}
    {e : String} {st : BCache}
    (hb : (bget dev bl st).1 = Except.error e) :
    bread disk dev bl st = (Except.error e, (bget dev bl st).2) := by
  cases hbg : bget dev bl st with
  | mk r tr =>
      rw [hbg] at hb
      simp only at hb
      subst hb
      simp [bread, hbg]

/-- Any successful fetch factors through a successful `bget` on the same
slot, followed by at most a validity/content update. -/
theorem bread_ok_bget {disk : Nat → Nat → Nat} {dev bl i : Nat}
    {st st2 : BCache}
    (h : (bread disk dev bl st).1 = Except.ok (i, st2)) :
    ∃ st1, (bget dev bl st).1 = Except.ok (i, st1) ∧
      ((getBuf st1 i).valid = true ∧ st2 = st1 ∨
       (getBuf st1 i).valid = false ∧ st2 = setBuf st1 i
         (fun b => { b with valid := true, data := disk dev bl })) := by
  cases hbg : (bget dev bl st).1 with
  | error e =>
      rw [bread_err_of_bget hbg] at h
      simp at h
  | ok p =>
      obtain ⟨j, st1⟩ := p
      rw [bread_eq_of_bget hbg] at h
      by_cases hv : (getBuf st1 j).valid = true
      · rw [if_pos hv] at h
        simp only [Except.ok.injEq, Prod.mk.injEq] at h
        obtain ⟨hji, hst⟩ := h
        subst hji
        subst hst
        exact ⟨st1, rfl, Or.inl ⟨hv, rfl⟩⟩
      · rw [if_neg hv] at h
        simp only [Except.ok.injEq, Prod.mk.injEq] at h
        obtain ⟨hji, hst⟩ := h
        subst hji
        exact ⟨st1, rfl, Or.inr ⟨by simpa using hv, hst.symm⟩⟩

/-! ### Preservation of the invariant by every operation -/

theorem getBuf_setBuf (st : BCache) (i k : Nat) (f : Buf → Buf) :
    getBuf (setBuf st i f) k =
      if k = i ∧ i < st.bufs.length then f (getBuf st i) else getBuf st k := by
  by_cases hk : k = i
  · subst hk
    by_cases hlt : k < st.bufs.length
    · simp [getBuf_setBuf_same st k f hlt, hlt]
    · have h1 : st.bufs.length ≤ k := Nat.le_of_not_lt hlt
      have h2 : (setBuf st k f).bufs.length ≤ k := by
        rw [length_setBuf]
        exact h1
      rw [getBuf_oob _ _ h2, getBuf_oob _ _ h1]
      simp [hlt]
  · simp [getBuf_setBuf_ne st i k f hk, hk]

theorem totalCount_setBuf (st : BCache) (i : Nat) (f : Buf → Buf) (k : Nat) :
    totalCount (setBuf st i f) k = totalCount st k := rfl

/-- Effect of rewriting one bucket on the per-slot occurrence sum. -/
theorem sum_count_update (bs : Nat → List Nat) (h0 : Nat) (l : List Nat)
    (hh : h0 < NHASH) (k : Nat) :
    (∑ h ∈ Finset.range NHASH, ((Function.update bs h0 l) h).count k)
        + (bs h0).count k
      = (∑ h ∈ Finset.range NHASH, (bs h).count k) + l.count k := by
  have hpt : ∀ h, ((Function.update bs h0 l) h).count k
      = Function.update (fun h2 => (bs h2).count k) h0 (l.count k) h := by
    intro h
    by_cases hh0 : h = h0
    · subst hh0
      simp
    · simp [Function.update_noteq hh0]
  rw [Finset.sum_congr rfl (fun h _ => hpt h),
    Finset.sum_update_of_mem (Finset.mem_range.mpr hh)]
  have := Finset.add_sum_erase (Finset.range NHASH)
    (fun h2 => (bs h2).count k) (Finset.mem_range.mpr hh)
  rw [Finset.erase_eq] at this
  simp only [] at this ⊢
  omega

theorem getBuf_binit (n i : Nat) : getBuf (binit n) i = default := by
  simp [getBuf, binit, List.getD_eq_getElem?_getD, List.getElem?_replicate]
  by_cases h : i < n <;> simp [h]

theorem Inv_binit (n : Nat) : Inv (binit n) := by
  refine ⟨?_, ?_, ?_, ?_, ?_, ?_⟩
  · intro h _
    rfl
  · intro h i hi
    simp [binit] at hi
  · intro i hi
    simp [binit] at hi ⊢
    omega
  · intro i hi
    simp [binit] at hi
    have hnodup : ((List.range n).reverse).Nodup :=
      List.nodup_reverse.mpr (List.nodup_range n)
    have hmem : i ∈ (List.range n).reverse := by
      simp [List.mem_reverse, List.mem_range]
      omega
    simp [totalCount, bucketSum, binit,
      List.count_eq_one_of_mem hnodup hmem]
  · intro i _
    simp [getBuf_binit, default]
  · intro i _ hheld
    rw [getBuf_binit] at hheld
    simp [default] at hheld

/-- The states reachable through the facade under its calling contract:
initialisation, any fetch, release of a held slot (the operation itself
checks this), and pin/unpin of a slot the caller has a live reference
to. -/
inductive Reach : BCache → Prop where
  | init (n : Nat) : Reach (binit n)
  | readStep (disk : Nat → Nat → Nat) (dev blockno i : Nat)
      (st st' : BCache) : Reach st →
      (bread disk dev blockno st).1 = Except.ok (i, st') → Reach st'
  | relStep (i : Nat) (st st' : BCache) : Reach st →
      (brelse i st).1 = Except.ok st' → Reach st'
  | pinStep (i : Nat) (st : BCache) : Reach st →
      1 ≤ (getBuf st i).refcnt → Reach (bpin i st).1
  | unpinStep (i : Nat) (st : BCache) : Reach st →
      1 ≤ (getBuf st i).refcnt → Reach (bunpin i st).1

theorem Inv_bget_hit {dev bl i : Nat} {st : BCache} (hi : Inv st)
    (hs : scanBucket dev bl st = some i) :
    Inv (getIdxSt (bget dev bl st).1) := by
  obtain ⟨hmem, hdev, hbl⟩ := scanBucket_some hs
  have hlt : i < st.bufs.length := (hi.hmemB _ i hmem).1
  obtain ⟨hok, hbk, hfl, hlen, hgi, hgo⟩ := bget_hit_parts hs hlt
  refine ⟨?_, ?_, ?_, ?_, ?_, ?_⟩
  · intro h hge
    rw [hbk]
    exact hi.hhigh h hge
  · intro h k hk
    rw [hbk] at hk
    rcases hi.hmemB h k hk with ⟨hklt, hkh⟩
    refine ⟨by rw [hlen]; exact hklt, ?_⟩
    by_cases hki : k = i
    · subst hki
      rw [hgi]
      exact hkh
    · rw [hgo k hki]
      exact hkh
  · intro k hk
    rw [hfl] at hk
    rw [hlen]
    exact hi.hmemF k hk
  · intro k hk
    rw [hlen] at hk
    have heq : totalCount (getIdxSt (bget dev bl st).1) k = totalCount st k := by
      simp [totalCount, bucketSum, hbk, hfl]
    rw [heq]
    exact hi.huniq k hk
  · intro k hk
    rw [hfl] at hk
    have hki : k ≠ i := by
      intro he
      subst he
      exact hi.not_mem_free_of_mem_bucket _ k hmem hk
    rw [hgo k hki]
    exact hi.hfree k hk
  · intro k hk hlock
    rw [hlen] at hk
    by_cases hki : k = i
    · subst hki
      rw [hgi, hbk]
      have hh2 : hash (getBuf st k).blockno = hash bl := (hi.hmemB _ k hmem).2
      show k ∈ st.buckets (hash (getBuf st k).blockno)
      rw [hh2]
      exact hmem
    · rw [hgo k hki] at hlock ⊢
      rw [hbk]
      exact hi.hheld k hk hlock

theorem NHASH_pos : 0 < NHASH := by norm_num [NHASH]

theorem hash_lt (blockno : Nat) : hash blockno < NHASH :=
  Nat.mod_lt blockno NHASH_pos

theorem Inv_bget_miss {dev bl i : Nat} {st : BCache} (hi : Inv st)
    (hs : scanBucket dev bl st = none) (ht : takeFree st = some i) :
    Inv (getIdxSt (bget dev bl st).1) := by
  obtain ⟨hmemf, hrc⟩ := takeFree_some ht
  have hlt : i < st.bufs.length := hi.hmemF i hmemf
  obtain ⟨hok, hbk, hfl, hlen, hgi, hgo⟩ := bget_miss_parts hs ht hlt
  have hhb : hash bl < NHASH := hash_lt bl
  obtain ⟨hfc, hbc⟩ := hi.mem_free_counts i hmemf
  have hnotb : ∀ k, i ∉ st.buckets k := hi.not_mem_bucket_of_mem_free i hmemf
  refine ⟨?_, ?_, ?_, ?_, ?_, ?_⟩
  · intro h hge
    rw [hbk]
    have hne : h ≠ hash bl := by omega
    rw [Function.update_noteq hne]
    exact hi.hhigh h hge
  · intro h k hk
    rw [hbk] at hk
    by_cases hh : h = hash bl
    · subst hh
      rw [Function.update_same] at hk
      rcases List.mem_cons.mp hk with hki | hk2
      · subst hki
        refine ⟨by rw [hlen]; exact hlt, ?_⟩
        rw [hgi]
      · have hki : k ≠ i := by
          intro he
          subst he
          exact hnotb _ hk2
        rcases hi.hmemB _ k hk2 with ⟨hklt, hkh⟩
        exact ⟨by rw [hlen]; exact hklt, by rw [hgo k hki]; exact hkh⟩
    · rw [Function.update_noteq hh] at hk
      have hki : k ≠ i := by
        intro he
        subst he
        exact hnotb _ hk
      rcases hi.hmemB h k hk with ⟨hklt, hkh⟩
      exact ⟨by rw [hlen]; exact hklt, by rw [hgo k hki]; exact hkh⟩
  · intro k hk
    rw [hfl] at hk
    rw [hlen]
    exact hi.hmemF k (List.mem_of_mem_erase hk)
  · intro k hk
    rw [hlen] at hk
    have hsum := sum_count_update st.buckets (hash bl)
      (i :: st.buckets (hash bl)) hhb k
    have htot := hi.huniq k hk
    have hunf : totalCount (getIdxSt (bget dev bl st).1) k =
        (∑ h ∈ Finset.range NHASH,
          ((Function.update st.buckets (hash bl)
            (i :: st.buckets (hash bl))) h).count k)
        + (st.freelist.erase i).count k := by
      simp [totalCount, bucketSum, hbk, hfl]
    rw [hunf]
    rw [totalCount, bucketSum] at htot
    by_cases hki : k = i
    · subst hki
      have hec : (st.freelist.erase k).count k = st.freelist.count k - 1 :=
        List.count_erase_self k st.freelist
      have hcons : (k :: st.buckets (hash bl)).count k
          = (st.buckets (hash bl)).count k + 1 := by
        simp [List.count_cons]
      have hbhb := hbc (hash bl)
      omega
    · have hcons : (i :: st.buckets (hash bl)).count k
          = (st.buckets (hash bl)).count k := by
        simp [List.count_cons, Ne.symm hki]
      have hec : (st.freelist.erase i).count k = st.freelist.count k :=
        List.count_erase_of_ne hki st.freelist
      omega
  · intro k hk
    rw [hfl] at hk
    have hknoti : k ≠ i := by
      intro he
      subst he
      have h0 : (st.freelist.erase k).count k = 0 := by
        rw [List.count_erase_self]
        omega
      exact absurd hk (List.count_eq_zero.mp h0)
    rw [hgo k hknoti]
    exact hi.hfree k (List.mem_of_mem_erase hk)
  · intro k hk hlock
    rw [hlen] at hk
    by_cases hki : k = i
    · subst hki
      rw [hgi, hbk]
      show k ∈ Function.update st.buckets (hash bl)
        (k :: st.buckets (hash bl)) (hash bl)
      rw [Function.update_same]
      exact List.mem_cons_self k _
    · rw [hgo k hki] at hlock ⊢
      rw [hbk]
      have hkmem := hi.hheld k hk hlock
      by_cases hh : hash (getBuf st k).blockno = hash bl
      · rw [hh, Function.update_same]
        rw [hh] at hkmem
        exact List.mem_cons_of_mem _ hkmem
      · rw [Function.update_noteq hh]
        exact hkmem

theorem Inv_bget {dev bl i : Nat} {st st' : BCache} (hi : Inv st)
    (h : (bget dev bl st).1 = Except.ok (i, st')) : Inv st' := by
  cases hs : scanBucket dev bl st with
  | some j =>
      have hinv := Inv_bget_hit hi hs
      have hsteq : st' = getIdxSt (bget dev bl st).1 := by
        rw [h]
        rfl
      rw [hsteq]
      exact hinv
  | none =>
      cases ht : takeFree st with
      | some j =>
          have hinv := Inv_bget_miss hi hs ht
          have hsteq : st' = getIdxSt (bget dev bl st).1 := by
            rw [h]
            rfl
          rw [hsteq]
          exact hinv
      | none =>
          rw [bget_exhaust_eq hs ht] at h
          simp at h

/-- Updating one slot while preserving its block number, reference
count and sleeplock state preserves the invariant. -/
theorem Inv_setBuf_keep {st : BCache} (hi : Inv st) (i : Nat) (f : Buf → Buf)
    (hbl : ∀ b, (f b).blockno = b.blockno)
    (hrc : ∀ b, (f b).refcnt = b.refcnt)
    (hlk : ∀ b, (f b).lockHeld = b.lockHeld) :
    Inv (setBuf st i f) := by
  refine ⟨?_, ?_, ?_, ?_, ?_, ?_⟩
  · intro h hge
    rw [buckets_setBuf]
    exact hi.hhigh h hge
  · intro h k hk
    rw [buckets_setBuf] at hk
    rcases hi.hmemB h k hk with ⟨hklt, hkh⟩
    refine ⟨by rw [length_setBuf]; exact hklt, ?_⟩
    rw [getBuf_setBuf]
    by_cases hc : k = i ∧ i < st.bufs.length
    · rw [if_pos hc, hbl]
      rw [hc.1] at hkh
      exact hkh
    · rw [if_neg hc]
      exact hkh
  · intro k hk
    rw [freelist_setBuf] at hk
    rw [length_setBuf]
    exact hi.hmemF k hk
  · intro k hk
    rw [length_setBuf] at hk
    rw [totalCount_setBuf]
    exact hi.huniq k hk
  · intro k hk
    rw [freelist_setBuf] at hk
    rw [getBuf_setBuf]
    by_cases hc : k = i ∧ i < st.bufs.length
    · rw [if_pos hc, hrc, hlk]
      rw [hc.1] at hk
      exact hi.hfree i hk
    · rw [if_neg hc]
      exact hi.hfree k hk
  · intro k hk hlock
    rw [length_setBuf] at hk
    rw [getBuf_setBuf] at hlock ⊢
    rw [buckets_setBuf]
    by_cases hc : k = i ∧ i < st.bufs.length
    · rw [if_pos hc] at hlock ⊢
      rw [hlk] at hlock
      rw [hbl]
      rw [hc.1]
      exact hi.hheld i hc.2 hlock
    · rw [if_neg hc] at hlock ⊢
      exact hi.hheld k hk hlock

/-- Updating one slot that is not in the freelist, while preserving its
block number and sleeplock state, preserves the invariant (the
reference count may change arbitrarily). -/
theorem Inv_setBuf_refcnt {st : BCache} (hi : Inv st) (i : Nat)
    (f : Buf → Buf)
    (hbl : ∀ b, (f b).blockno = b.blockno)
    (hlk : ∀ b, (f b).lockHeld = b.lockHeld)
    (hnf : i ∉ st.freelist) :
    Inv (setBuf st i f) := by
  refine ⟨?_, ?_, ?_, ?_, ?_, ?_⟩
  · intro h hge
    rw [buckets_setBuf]
    exact hi.hhigh h hge
  · intro h k hk
    rw [buckets_setBuf] at hk
    rcases hi.hmemB h k hk with ⟨hklt, hkh⟩
    refine ⟨by rw [length_setBuf]; exact hklt, ?_⟩
    rw [getBuf_setBuf]
    by_cases hc : k = i ∧ i < st.bufs.length
    · rw [if_pos hc, hbl]
      rw [hc.1] at hkh
      exact hkh
    · rw [if_neg hc]
      exact hkh
  · intro k hk
    rw [freelist_setBuf] at hk
    rw [length_setBuf]
    exact hi.hmemF k hk
  · intro k hk
    rw [length_setBuf] at hk
    rw [totalCount_setBuf]
    exact hi.huniq k hk
  · intro k hk
    rw [freelist_setBuf] at hk
    have hki : k ≠ i := by
      intro he
      subst he
      exact hnf hk
    rw [getBuf_setBuf, if_neg (by simp [hki])]
    exact hi.hfree k hk
  · intro k hk hlock
    rw [length_setBuf] at hk
    rw [getBuf_setBuf] at hlock ⊢
    rw [buckets_setBuf]
    by_cases hc : k = i ∧ i < st.bufs.length
    · rw [if_pos hc] at hlock ⊢
      rw [hlk] at hlock
      rw [hbl]
      rw [hc.1]
      exact hi.hheld i hc.2 hlock
    · rw [if_neg hc] at hlock ⊢
      exact hi.hheld k hk hlock

theorem Inv_bread {disk : Nat → Nat → Nat} {dev bl i : Nat}
    {st st2 : BCache} (hi : Inv st)
    (h : (bread disk dev bl st).1 = Except.ok (i, st2)) : Inv st2 := by
  obtain ⟨st1, hb, hcase⟩ := bread_ok_bget h
  have hinv1 := Inv_bget hi hb
  rcases hcase with ⟨-, rfl⟩ | ⟨-, rfl⟩
  · exact hinv1
  · exact Inv_setBuf_keep hinv1 i _ (fun b => rfl) (fun b => rfl)
      (fun b => rfl)

theorem Inv_bpin {i : Nat} {st : BCache} (hi : Inv st)
    (hrc : 1 ≤ (getBuf st i).refcnt) : Inv (bpin i st).1 := by
  have hnf : i ∉ st.freelist := by
    intro hmem
    have := (hi.hfree i hmem).1
    omega
  exact Inv_setBuf_refcnt hi i
    (fun b => { b with refcnt := b.refcnt + 1 })
    (fun b => rfl) (fun b => rfl) hnf

theorem Inv_bunpin {i : Nat} {st : BCache} (hi : Inv st)
    (hrc : 1 ≤ (getBuf st i).refcnt) : Inv (bunpin i st).1 := by
  have hnf : i ∉ st.freelist := by
    intro hmem
    have := (hi.hfree i hmem).1
    omega
  exact Inv_setBuf_refcnt hi i
    (fun b => { b with refcnt := b.refcnt - 1 })
    (fun b => rfl) (fun b => rfl) hnf

theorem Inv_brelse {i : Nat} {st st' : BCache} (hi : Inv st)
    (h : (brelse i st).1 = Except.ok st') : Inv st' := by
  by_cases hh : (getBuf st i).lockHeld = true
  case neg =>
    have hh2 : (getBuf st i).lockHeld = false := by
      revert hh
      cases (getBuf st i).lockHeld <;> simp
    rw [brelse_not_held hh2] at h
    simp at h
  case pos =>
  have hlt := lt_length_of_lockHeld hh
  have hmemb : i ∈ st.buckets (hash (getBuf st i).blockno) :=
    hi.hheld i hlt hh
  have hsteq : st' = getSt (brelse i st).1 := by
    rw [h]
    rfl
  rw [hsteq]
  by_cases hz : (getBuf st i).refcnt - 1 = 0
  · obtain ⟨hok, hbk, hfl, hlen, hgi, hgo⟩ := brelse_zero_parts hh hz
    obtain ⟨hc1, hcf, hco⟩ := hi.mem_bucket_counts _ i hmemb
    have hhb : hash (getBuf st i).blockno < NHASH := hash_lt _
    have hinotf : i ∉ st.freelist := List.count_eq_zero.mp hcf
    refine ⟨?_, ?_, ?_, ?_, ?_, ?_⟩
    · intro h2 hge
      rw [hbk]
      rw [Function.update_noteq (by omega)]
      exact hi.hhigh h2 hge
    · intro h2 k hk
      rw [hbk] at hk
      by_cases hh2 : h2 = hash (getBuf st i).blockno
      · subst hh2
        rw [Function.update_same] at hk
        have hk2 := List.mem_of_mem_erase hk
        have hki : k ≠ i := by
          intro he
          subst he
          have h0 : ((st.buckets (hash (getBuf st k).blockno)).erase k).count k
              = 0 := by
            rw [List.count_erase_self]
            omega
          exact absurd hk (List.count_eq_zero.mp h0)
        rcases hi.hmemB _ k hk2 with ⟨hklt, hkh⟩
        exact ⟨by rw [hlen]; exact hklt, by rw [hgo k hki]; exact hkh⟩
      · rw [Function.update_noteq hh2] at hk
        have hki : k ≠ i := by
          intro he
          subst he
          exact absurd hk (List.count_eq_zero.mp (hco h2 hh2))
        rcases hi.hmemB h2 k hk with ⟨hklt, hkh⟩
        exact ⟨by rw [hlen]; exact hklt, by rw [hgo k hki]; exact hkh⟩
    · intro k hk
      rw [hfl] at hk
      rw [hlen]
      rcases List.mem_cons.mp hk with he | hm
      · subst he
        exact hlt
      · exact hi.hmemF k hm
    · intro k hk
      rw [hlen] at hk
      have hsum := sum_count_update st.buckets (hash (getBuf st i).blockno)
        ((st.buckets (hash (getBuf st i).blockno)).erase i) hhb k
      have htot := hi.huniq k hk
      rw [totalCount, bucketSum] at htot
      have hunf : totalCount (getSt (brelse i st).1) k =
          (∑ h2 ∈ Finset.range NHASH,
            ((Function.update st.buckets (hash (getBuf st i).blockno)
              ((st.buckets (hash (getBuf st i).blockno)).erase i)) h2).count k)
          + (i :: st.freelist).count k := by
        simp [totalCount, bucketSum, hbk, hfl]
      rw [hunf]
      by_cases hki : k = i
      · subst hki
        have hec : ((st.buckets (hash (getBuf st k).blockno)).erase k).count k
            = (st.buckets (hash (getBuf st k).blockno)).count k - 1 :=
          List.count_erase_self k _
        have hcons : (k :: st.freelist).count k = st.freelist.count k + 1 := by
          simp [List.count_cons]
        omega
      · have hec := List.count_erase_of_ne hki
          (st.buckets (hash (getBuf st i).blockno))
        have hcons : (i :: st.freelist).count k = st.freelist.count k := by
          simp [List.count_cons, Ne.symm hki]
        omega
    · intro k hk
      rw [hfl] at hk
      rcases List.mem_cons.mp hk with he | hm
      · subst he
        rw [hgi]
        exact ⟨hz, rfl⟩
      · have hki : k ≠ i := by
          intro he
          subst he
          exact hinotf hm
        rw [hgo k hki]
        exact hi.hfree k hm
    · intro k hk hlock
      rw [hlen] at hk
      by_cases hki : k = i
      · subst hki
        rw [hgi] at hlock
        simp at hlock
      · rw [hgo k hki] at hlock ⊢
        rw [hbk]
        have hkmem := hi.hheld k hk hlock
        by_cases hh2 : hash (getBuf st k).blockno
            = hash (getBuf st i).blockno
        · rw [hh2, Function.update_same]
          rw [hh2] at hkmem
          exact (List.mem_erase_of_ne hki).mpr hkmem
        · rw [Function.update_noteq hh2]
          exact hkmem
  · obtain ⟨hok, hbk, hfl, hlen, hgi, hgo⟩ := brelse_pos_parts hh hz
    have hinotf : i ∉ st.freelist := hi.not_mem_free_of_mem_bucket _ i hmemb
    refine ⟨?_, ?_, ?_, ?_, ?_, ?_⟩
    · intro h2 hge
      rw [hbk]
      exact hi.hhigh h2 hge
    · intro h2 k hk
      rw [hbk] at hk
      rcases hi.hmemB h2 k hk with ⟨hklt, hkh⟩
      refine ⟨by rw [hlen]; exact hklt, ?_⟩
      by_cases hki : k = i
      · subst hki
        rw [hgi]
        exact hkh
      · rw [hgo k hki]
        exact hkh
    · intro k hk
      rw [hfl] at hk
      rw [hlen]
      exact hi.hmemF k hk
    · intro k hk
      rw [hlen] at hk
      have heq : totalCount (getSt (brelse i st).1) k = totalCount st k := by
        simp [totalCount, bucketSum, hbk, hfl]
      rw [heq]
      exact hi.huniq k hk
    · intro k hk
      rw [hfl] at hk
      have hki : k ≠ i := by
        intro he
        subst he
        exact hinotf hk
      rw [hgo k hki]
      exact hi.hfree k hk
    · intro k hk hlock
      rw [hlen] at hk
      by_cases hki : k = i
      · subst hki
        rw [hgi] at hlock
        simp at hlock
      · rw [hgo k hki] at hlock ⊢
        rw [hbk]
        exact hi.hheld k hk hlock

/-- Every reachable state satisfies the structural invariant. -/
theorem Reach_Inv {st : BCache} (h : Reach st) : Inv st := by
  induction h with
  | init n => exact Inv_binit n
  | readStep disk dev bl i st st2 hr hb ih => exact Inv_bread ih hb
  | relStep i st st2 hr hb ih => exact Inv_brelse ih hb
  | pinStep i st hr hrc ih => exact Inv_bpin ih hrc
  | unpinStep i st hr hrc ih => exact Inv_bunpin ih hrc

/-- A slot with a live reference is indexed in the bucket its block
hashes to. -/
theorem Inv.mem_bucket_of_refcnt {st : BCache} (hi : Inv st) {i : Nat}
    (hrc : (getBuf st i).refcnt ≠ 0) :
    i ∈ st.buckets (hash (getBuf st i).blockno) := by
  have hlt := lt_length_of_refcnt_ne hrc
  have hnf : i ∉ st.freelist := fun hm => hrc (hi.hfree i hm).1
  have htot := hi.huniq i hlt
  rw [totalCount] at htot
  have hcf : st.freelist.count i = 0 := List.count_eq_zero_of_not_mem hnf
  have hbs : bucketSum st i = 1 := by omega
  have hex : ∃ h ∈ Finset.range NHASH, (st.buckets h).count i ≠ 0 := by
    by_contra hall
    push_neg at hall
    have h0 : bucketSum st i = 0 :=
      Finset.sum_eq_zero (fun h2 hm => hall h2 hm)
    omega
  obtain ⟨h, hhm, hcnt⟩ := hex
  have hmem : i ∈ st.buckets h :=
    List.count_pos_iff.mp (Nat.pos_of_ne_zero hcnt)
  have hhh := (hi.hmemB h i hmem).2
  rw [hhh]
  exact hmem

/-- What is true of the slot a successful `bget` hands back. -/
theorem bget_ok_facts {dev bl i : Nat} {st st1 : BCache} (hi : Inv st)
    (hb : (bget dev bl st).1 = Except.ok (i, st1)) :
    (getBuf st1 i).dev = dev ∧ (getBuf st1 i).blockno = bl ∧
    (getBuf st1 i).lockHeld = true ∧ i < st1.bufs.length ∧
    (scanBucket dev bl st = none →
      (getBuf st1 i).refcnt = 1 ∧ (getBuf st1 i).valid = false ∧
      st1.buckets (hash bl) = i :: st.buckets (hash bl)) := by
  cases hs : scanBucket dev bl st with
  | some j =>
      obtain ⟨hmem, hdev, hbl⟩ := scanBucket_some hs
      have hlt : j < st.bufs.length := (hi.hmemB _ j hmem).1
      obtain ⟨hok, hbk, hfl, hlen, hgi, hgo⟩ := bget_hit_parts hs hlt
      have hij : i = j := by
        rw [hb] at hok
        simp only [Except.ok.injEq, Prod.mk.injEq] at hok
        exact hok.1
      subst hij
      have hst : st1 = getIdxSt (bget dev bl st).1 := by
        rw [hb]
        rfl
      subst hst
      refine ⟨?_, ?_, ?_, ?_, ?_⟩
      · rw [hgi]
        exact hdev
      · rw [hgi]
        exact hbl
      · rw [hgi]
      · rw [hlen]
        exact hlt
      · intro hnone
        simp [hs] at hnone
  | none =>
      cases ht : takeFree st with
      | some j =>
          have hlt : j < st.bufs.length := hi.hmemF j (takeFree_some ht).1
          obtain ⟨hok, hbk, hfl, hlen, hgi, hgo⟩ := bget_miss_parts hs ht hlt
          have hij : i = j := by
            rw [hb] at hok
            simp only [Except.ok.injEq, Prod.mk.injEq] at hok
            exact hok.1
          subst hij
          have hst : st1 = getIdxSt (bget dev bl st).1 := by
            rw [hb]
            rfl
          subst hst
          refine ⟨by rw [hgi], by rw [hgi], by rw [hgi],
            by rw [hlen]; exact hlt, ?_⟩
          intro _
          refine ⟨by rw [hgi], by rw [hgi], ?_⟩
          rw [hbk, Function.update_same]
      | none =>
          rw [bget_exhaust_eq hs ht] at hb
          simp at hb

/-- The lookup step itself never talks to the device. -/
theorem bget_trace_no_devRead (dev bl : Nat) (st : BCache)
    (j d2 b2 : Nat) : Ev.devRead j d2 b2 ∉ (bget dev bl st).2 := by
  cases hs : scanBucket dev bl st with
  | some k =>
      rw [bget_hit_eq hs]
      simp
  | none =>
      cases ht : takeFree st with
      | some k =>
          rw [bget_miss_eq hs ht]
          simp
      | none =>
          rw [bget_exhaust_eq hs ht]
          simp

/-! ### Concrete runs used as witnesses -/

/-- A fixed device-content collaborator for concrete runs. -/
def diskW : Nat → Nat → Nat := fun _ _ => 77

/-- State after fetching block (1, 1) on a freshly initialised
single-slot cache: slot 0 is held with reference count one. -/
def stW1 : BCache := getIdxSt (bread diskW 1 1 (binit 1)).1

theorem bread_stW1 : (bread diskW 1 1 (binit 1)).1 = Except.ok (0, stW1) :=
  rfl

theorem Inv_stW1 : Inv stW1 := Inv_bread (Inv_binit 1) bread_stW1

/-- State after fetching block (1, 1) on a fresh two-slot cache: slot 1
is held. -/
def stW2a : BCache := getIdxSt (bread diskW 1 1 (binit 2)).1

/-- State after additionally fetching block (1, 2): slots 1 and 0 are
both held with reference count one. -/
def stW2 : BCache := getIdxSt (bread diskW 1 2 stW2a).1

theorem bread_stW2a :
    (bread diskW 1 1 (binit 2)).1 = Except.ok (1, stW2a) := rfl

theorem bread_stW2 :
    (bread diskW 1 2 stW2a).1 = Except.ok (0, stW2) := rfl

theorem Inv_stW2 : Inv stW2 :=
  Inv_bread (Inv_bread (Inv_binit 2) bread_stW2a) bread_stW2

/-! ### The claims -/

/-- C6: calling flush (bwrite) or release (brelse) without holding the
slot's exclusive content-access sleeplock fails fatally with the panic
messages "bwrite" and "brelse"; when the precondition holds neither
operation signals any error, and flush leaves the sleeplock held. -/
theorem C6_contract_checks :
    (∀ st i, (getBuf st i).lockHeld = false →
      (bwrite i st).1 = Except.error "bwrite") ∧
    (∀ st i, (getBuf st i).lockHeld = false →
      (brelse i st).1 = Except.error "brelse") ∧
    (∀ st i, (getBuf st i).lockHeld = true →
      (bwrite i st).1 = Except.ok st ∧
      (getBuf (getSt (bwrite i st).1) i).lockHeld = true) ∧
    (∀ st i, (getBuf st i).lockHeld = true →
      exOk (brelse i st).1 = true) := by
  refine ⟨?_, ?_, ?_, ?_⟩
  · intro st i h
    simp [bwrite, h]
  · intro st i h
    rw [brelse_not_held h]
  · intro st i h
    refine ⟨by simp [bwrite, h], ?_⟩
    have hok : (bwrite i st).1 = Except.ok st := by simp [bwrite, h]
    rw [hok]
    exact h
  · intro st i h
    by_cases hz : (getBuf st i).refcnt - 1 = 0
    · rw [(brelse_zero_parts h hz).1]
      rfl
    · rw [(brelse_pos_parts h hz).1]
      rfl

theorem C6_contract_checks_witness :
    (bwrite 0 (binit 1)).1 = Except.error "bwrite" ∧
    (brelse 0 (binit 1)).1 = Except.error "brelse" ∧
    (bwrite 0 stW1).1 = Except.ok stW1 ∧
    exOk (brelse 0 stW1).1 = true :=
  ⟨C6_contract_checks.1 (binit 1) 0 rfl,
   C6_contract_checks.2.1 (binit 1) 0 rfl,
   (C6_contract_checks.2.2.1 stW1 0 rfl).1,
   C6_contract_checks.2.2.2 stW1 0 rfl⟩

/-- C10: with the sleeplock held, bwrite leaves the entire cache state
unchanged; its only effect is a single device-write event carrying the
slot's identity and its current content. -/
theorem C10_bwrite_frame :
    ∀ st i, (getBuf st i).lockHeld = true →
      (bwrite i st).1 = Except.ok st ∧
      (bwrite i st).2 = [Ev.devWrite i (getBuf st i).dev
        (getBuf st i).blockno (getBuf st i).data] := by
  intro st i h
  constructor <;> simp [bwrite, h]

theorem C10_bwrite_frame_witness :
    (bwrite 0 stW1).1 = Except.ok stW1 ∧
    (bwrite 0 stW1).2 = [Ev.devWrite 0 1 1 77] := by
  have h := C10_bwrite_frame stW1 0 rfl
  exact ⟨h.1, h.2⟩

/-- C9: bunpin only decrements the slot's reference count under the
owning bucket's lock: every other field of the slot, every other slot,
the bucket lists and the freelist are untouched, and (even when the
count reaches zero) the slot stays in its bucket and is not pushed onto
the freelist. -/
theorem C9_bunpin_only_decrements :
    ∀ st i, Inv st → 1 ≤ (getBuf st i).refcnt →
      (getBuf (bunpin i st).1 i).refcnt = (getBuf st i).refcnt - 1 ∧
      ((getBuf (bunpin i st).1 i).dev = (getBuf st i).dev ∧
       (getBuf (bunpin i st).1 i).blockno = (getBuf st i).blockno ∧
       (getBuf (bunpin i st).1 i).valid = (getBuf st i).valid ∧
       (getBuf (bunpin i st).1 i).lockHeld = (getBuf st i).lockHeld ∧
       (getBuf (bunpin i st).1 i).data = (getBuf st i).data) ∧
      (bunpin i st).1.buckets = st.buckets ∧
      (bunpin i st).1.freelist = st.freelist ∧
      (∀ j, j ≠ i → getBuf (bunpin i st).1 j = getBuf st j) ∧
      i ∈ (bunpin i st).1.buckets (hash (getBuf st i).blockno) ∧
      i ∉ (bunpin i st).1.freelist := by
  intro st i hi hrc
  have hne : (getBuf st i).refcnt ≠ 0 := by omega
  have hlt := lt_length_of_refcnt_ne hne
  obtain ⟨hbk, hfl, hlen, hgi, hgo⟩ := bunpin_parts i st hlt
  have hmem := hi.mem_bucket_of_refcnt hne
  have hnf : i ∉ st.freelist := fun hm => hne (hi.hfree i hm).1
  refine ⟨by rw [hgi], ⟨by rw [hgi], by rw [hgi], by rw [hgi],
    by rw [hgi], by rw [hgi]⟩, hbk, hfl, hgo, ?_, ?_⟩
  · rw [hbk]
    exact hmem
  · rw [hfl]
    exact hnf

theorem C9_bunpin_witness :
    (getBuf (bunpin 0 stW1).1 0).refcnt = (getBuf stW1 0).refcnt - 1 ∧
    (bunpin 0 stW1).1.freelist = stW1.freelist ∧
    0 ∈ (bunpin 0 stW1).1.buckets (hash (getBuf stW1 0).blockno) := by
  have h := C9_bunpin_only_decrements stW1 0 Inv_stW1 (by decide)
  exact ⟨h.1, h.2.2.2.1, h.2.2.2.2.2.1⟩

/-- C4: brelse with the sleeplock held succeeds, releasing the
sleeplock first (the first event of its trace), then decrementing the
reference count; exactly when the count reaches zero the slot is
unlinked from every bucket and pushed at the freelist head, and no
subsequent bucket scan can return it; identity, validity and content
are untouched in every case, and when the count stays nonzero the lists
are untouched too. -/
theorem C4_brelse_frame :
    ∀ st i, Inv st → (getBuf st i).lockHeld = true →
      (brelse i st).1 = Except.ok (getSt (brelse i st).1) ∧
      (brelse i st).2.head? = some (Ev.relSleep i) ∧
      (getBuf (getSt (brelse i st).1) i).lockHeld = false ∧
      (getBuf (getSt (brelse i st).1) i).refcnt
        = (getBuf st i).refcnt - 1 ∧
      ((getBuf (getSt (brelse i st).1) i).dev = (getBuf st i).dev ∧
       (getBuf (getSt (brelse i st).1) i).blockno
         = (getBuf st i).blockno ∧
       (getBuf (getSt (brelse i st).1) i).valid = (getBuf st i).valid ∧
       (getBuf (getSt (brelse i st).1) i).data = (getBuf st i).data) ∧
      ((getBuf st i).refcnt - 1 = 0 →
        (∀ h, i ∉ (getSt (brelse i st).1).buckets h) ∧
        (getSt (brelse i st).1).freelist = i :: st.freelist ∧
        ∀ dev bl, scanBucket dev bl (getSt (brelse i st).1) ≠ some i) ∧
      ((getBuf st i).refcnt - 1 ≠ 0 →
        (getSt (brelse i st).1).buckets = st.buckets ∧
        (getSt (brelse i st).1).freelist = st.freelist) := by
  intro st i hi hh
  have hlt := lt_length_of_lockHeld hh
  have hmemb : i ∈ st.buckets (hash (getBuf st i).blockno) :=
    hi.hheld i hlt hh
  obtain ⟨hc1, hcf, hco⟩ := hi.mem_bucket_counts _ i hmemb
  by_cases hz : (getBuf st i).refcnt - 1 = 0
  · obtain ⟨hok, hbk, hfl, hlen, hgi, hgo⟩ := brelse_zero_parts hh hz
    have hnone : ∀ h, i ∉ (getSt (brelse i st).1).buckets h := by
      intro h2
      rw [hbk]
      by_cases hh2 : h2 = hash (getBuf st i).blockno
      · subst hh2
        rw [Function.update_same]
        intro hmem2
        have h0 : ((st.buckets (hash (getBuf st i).blockno)).erase i).count i
            = 0 := by
          rw [List.count_erase_self]
          omega
        exact (List.count_eq_zero.mp h0) hmem2
      · rw [Function.update_noteq hh2]
        exact List.count_eq_zero.mp (hco h2 hh2)
    refine ⟨hok, ?_, by rw [hgi], by rw [hgi],
      ⟨by rw [hgi], by rw [hgi], by rw [hgi], by rw [hgi]⟩,
      fun _ => ⟨hnone, hfl, ?_⟩, fun hc => absurd hz hc⟩
    · rw [brelse_zero_eq hh hz]
      rfl
    · intro dev bl hscan
      exact hnone (hash bl) (scanBucket_some hscan).1
  · obtain ⟨hok, hbk, hfl, hlen, hgi, hgo⟩ := brelse_pos_parts hh hz
    refine ⟨hok, ?_, by rw [hgi], by rw [hgi],
      ⟨by rw [hgi], by rw [hgi], by rw [hgi], by rw [hgi]⟩,
      fun hc => absurd hc hz, fun _ => ⟨hbk, hfl⟩⟩
    rw [brelse_pos_eq hh hz]
    rfl

theorem C4_brelse_witness :
    (getBuf (getSt (brelse 0 stW1).1) 0).lockHeld = false ∧
    (getSt (brelse 0 stW1).1).freelist = 0 :: stW1.freelist ∧
    (getBuf (getSt (brelse 0 stW1).1) 0).valid = (getBuf stW1 0).valid ∧
    (brelse 0 stW1).2.head? = some (Ev.relSleep 0) := by
  have h := C4_brelse_frame stW1 0 Inv_stW1 rfl
  exact ⟨h.2.2.1, (h.2.2.2.2.2.1 (by decide)).2.1, h.2.2.2.2.1.2.2.1,
    h.2.1⟩

/-- C2: initialisation puts every slot in the freelist; at every state
reachable under the facade's calling contract each slot is a member of
exactly one list (its total occurrence count across all buckets and the
freelist is one), freelist slots have reference count zero, and a slot
with a live reference sits in the bucket its block hashes to and not in
the freelist. -/
theorem C2_membership_invariant :
    (∀ n i, i < n → i ∈ (binit n).freelist ∧ totalCount (binit n) i = 1) ∧
    (∀ st, Reach st →
      (∀ i, i < st.bufs.length → totalCount st i = 1) ∧
      (∀ i ∈ st.freelist, (getBuf st i).refcnt = 0) ∧
      (∀ i, i < st.bufs.length → 1 ≤ (getBuf st i).refcnt →
        i ∈ st.buckets (hash (getBuf st i).blockno) ∧
        i ∉ st.freelist)) := by
  constructor
  · intro n i hin
    have hi := Inv_binit n
    have hlen : (binit n).bufs.length = n := by simp [binit]
    refine ⟨?_, hi.huniq i (by rw [hlen]; exact hin)⟩
    show i ∈ (List.range n).reverse
    simp [List.mem_reverse, List.mem_range]
    exact hin
  · intro st hr
    have hi := Reach_Inv hr
    refine ⟨hi.huniq, fun i hm => (hi.hfree i hm).1, ?_⟩
    intro i hlt hrc
    have hne : (getBuf st i).refcnt ≠ 0 := by omega
    exact ⟨hi.mem_bucket_of_refcnt hne, fun hm => hne (hi.hfree i hm).1⟩

theorem C2_membership_witness :
    totalCount stW1 0 = 1 ∧
    0 ∈ stW1.buckets (hash (getBuf stW1 0).blockno) ∧
    0 ∈ (binit 3).freelist := by
  have h := C2_membership_invariant
  have hreach : Reach stW1 :=
    Reach.readStep diskW 1 1 0 (binit 1) stW1 (Reach.init 1) bread_stW1
  exact ⟨(h.2 stW1 hreach).1 0 (by decide),
    ((h.2 stW1 hreach).2.2 0 (by decide) (by decide)).1,
    (h.1 3 0 (by decide)).1⟩

/-- C3: a successful fetch returns a slot whose identity equals the
requested (device, block), valid and with the sleeplock held; the
device-read collaborator is invoked exactly when the looked-up slot was
not already valid; and on a cache miss the claimed slot has its
identity set, valid cleared and reference count one, sitting at the
head of the target bucket, before the device read happens. -/
theorem C3_bread_spec :
    ∀ disk dev bl i st st2, Inv st →
      (bread disk dev bl st).1 = Except.ok (i, st2) →
      ((getBuf st2 i).dev = dev ∧ (getBuf st2 i).blockno = bl ∧
       (getBuf st2 i).valid = true ∧ (getBuf st2 i).lockHeld = true) ∧
      (∀ st1, (bget dev bl st).1 = Except.ok (i, st1) →
        ((Ev.devRead i dev bl ∈ (bread disk dev bl st).2) ↔
          (getBuf st1 i).valid = false) ∧
        (scanBucket dev bl st = none →
          (getBuf st1 i).refcnt = 1 ∧ (getBuf st1 i).valid = false ∧
          st1.buckets (hash bl) = i :: st.buckets (hash bl))) := by
  intro disk dev bl i st st2 hi h
  obtain ⟨st1, hb, hcase⟩ := bread_ok_bget h
  obtain ⟨hdev, hbl, hlk, hlen1, hmiss⟩ := bget_ok_facts hi hb
  constructor
  · rcases hcase with ⟨hv, rfl⟩ | ⟨hv, rfl⟩
    · exact ⟨hdev, hbl, hv, hlk⟩
    · rw [getBuf_setBuf_same st1 i _ hlen1]
      exact ⟨hdev, hbl, rfl, hlk⟩
  · intro st1b hb2
    have hst1 : st1b = st1 := by
      rw [hb] at hb2
      simp only [Except.ok.injEq, Prod.mk.injEq] at hb2
      exact hb2.2.symm
    subst hst1
    refine ⟨?_, hmiss⟩
    rw [bread_eq_of_bget hb]
    rcases hcase with ⟨hv, -⟩ | ⟨hv, -⟩
    · rw [if_pos hv]
      simp [bget_trace_no_devRead dev bl st i dev bl, hv]
    · rw [if_neg (by simp [hv])]
      simp [hv]

theorem C3_bread_witness :
    (getBuf stW1 0).dev = 1 ∧ (getBuf stW1 0).blockno = 1 ∧
    (getBuf stW1 0).valid = true ∧
    Ev.devRead 0 1 1 ∈ (bread diskW 1 1 (binit 1)).2 := by
  have h := C3_bread_spec diskW 1 1 0 (binit 1) stW1 (Inv_binit 1)
    bread_stW1
  refine ⟨h.1.1, h.1.2.1, h.1.2.2.1, ?_⟩
  have h2 := (h.2 (getIdxSt (bget 1 1 (binit 1)).1) rfl).1
  exact h2.mpr (by decide)

/-- C1 counterexample: on the freshly initialised two-slot cache, the
lookup of an uncached block (the miss path) acquires the freelist
(pool) lock while still holding the bucket lock: after the first two
events of the successful run, two structural locks are held at once, so
the miss path does not release the bucket lock before touching the
recycle pool. -/
theorem C1_two_locks_counterexample :
    heldAfter ((bget 1 0 (binit 2)).2.take 2)
      = [LockId.pool, LockId.bucket 0] ∧
    maxHeld (bget 1 0 (binit 2)).2 = 2 ∧
    exOk (bget 1 0 (binit 2)).1 = true := by
  refine ⟨?_, ?_, ?_⟩ <;> decide

/-- C1 amended: each operation follows the discipline actually present
in bio.c: at most two structural locks at once, never two bucket locks,
and the pool lock is only acquired, and only held, while a bucket lock
is already held (a fixed bucket-then-pool order; release and the miss
path of lookup keep the bucket lock while touching the pool). -/
theorem C1_lock_discipline :
    ∀ st i disk dev bl,
      disciplined (bget dev bl st).2 = true ∧
      disciplined (bread disk dev bl st).2 = true ∧
      disciplined (bwrite i st).2 = true ∧
      disciplined (brelse i st).2 = true ∧
      disciplined (bpin i st).2 = true ∧
      disciplined (bunpin i st).2 = true := by
  have hbget : ∀ dev bl st, disciplined (bget dev bl st).2 = true := by
    intro dev bl st
    cases hs : scanBucket dev bl st with
    | some j =>
        rw [bget_hit_eq hs]
        simp [disciplined, disciplinedFrom, heldStep, checkHeld,
          LockId.isBucket]
    | none =>
        cases ht : takeFree st with
        | some j =>
            rw [bget_miss_eq hs ht]
            simp [disciplined, disciplinedFrom, heldStep, checkHeld,
              LockId.isBucket]
        | none =>
            rw [bget_exhaust_eq hs ht]
            simp [disciplined, disciplinedFrom, heldStep, checkHeld,
              LockId.isBucket]
  intro st i disk dev bl
  refine ⟨hbget dev bl st, ?_, ?_, ?_, ?_, ?_⟩
  · cases hbg : (bget dev bl st).1 with
    | error e =>
        rw [bread_err_of_bget hbg]
        exact hbget dev bl st
    | ok p =>
        obtain ⟨j, st1⟩ := p
        rw [bread_eq_of_bget hbg]
        by_cases hv : (getBuf st1 j).valid = true
        · rw [if_pos hv]
          exact hbget dev bl st
        · rw [if_neg hv]
          show disciplined ((bget dev bl st).2 ++ [Ev.devRead j dev bl])
            = true
          cases hs : scanBucket dev bl st with
          | some k =>
              rw [bget_hit_eq hs]
              simp [disciplined, disciplinedFrom, heldStep, checkHeld,
                LockId.isBucket]
          | none =>
              cases ht : takeFree st with
              | some k =>
                  rw [bget_miss_eq hs ht]
                  simp [disciplined, disciplinedFrom, heldStep, checkHeld,
                    LockId.isBucket]
              | none =>
                  rw [bget_exhaust_eq hs ht]
                  simp [disciplined, disciplinedFrom, heldStep, checkHeld,
                    LockId.isBucket]
  · by_cases hh : (getBuf st i).lockHeld = true
    · simp only [bwrite, hh, if_true]
      rfl
    · have hh2 : (getBuf st i).lockHeld = false := by
        revert hh
        cases (getBuf st i).lockHeld <;> simp
      simp only [bwrite, hh2]
      rfl
  · by_cases hh : (getBuf st i).lockHeld = true
    · by_cases hz : (getBuf st i).refcnt - 1 = 0
      · rw [brelse_zero_eq hh hz]
        simp [disciplined, disciplinedFrom, heldStep, checkHeld,
          LockId.isBucket]
      · rw [brelse_pos_eq hh hz]
        simp [disciplined, disciplinedFrom, heldStep, checkHeld,
          LockId.isBucket]
    · have hh2 : (getBuf st i).lockHeld = false := by
        revert hh
        cases (getBuf st i).lockHeld <;> simp
      rw [brelse_not_held hh2]
      rfl
  · simp [bpin, disciplined, disciplinedFrom, heldStep, checkHeld,
      LockId.isBucket]
  · simp [bunpin, disciplined, disciplinedFrom, heldStep, checkHeld,
      LockId.isBucket]

/-- C5 counterexample: the call sequence fetch (1,1); unpin; release on
a single-slot cache performs a release that takes slot 0's reference
count below zero: every call returns without a panic and the final
count is -1, so a release below zero is not caught. -/
theorem C5_negative_refcnt_counterexample :
    exOk (runOps diskW [Op.read 1 1, Op.unpin 0, Op.rel 0] (binit 1))
      = true ∧
    (getBuf (getSt (runOps diskW [Op.read 1 1, Op.unpin 0, Op.rel 0]
      (binit 1))) 0).refcnt = -1 := by
  constructor <;> decide

/-- Reachability with ghost pin counters: `pins i` counts the
outstanding pins of slot `i`.  The protocol is balanced: the
(sequential) caller only fetches slots it does not already hold, and
every unpin is matched by an outstanding pin. -/
inductive ReachB : BCache → (Nat → Nat) → Prop where
  | init (n : Nat) : ReachB (binit n) (fun _ => 0)
  | readStep (disk : Nat → Nat → Nat) (dev blockno i : Nat)
      (st st' : BCache) (pins : Nat → Nat) : ReachB st pins →
      (bread disk dev blockno st).1 = Except.ok (i, st') →
      (getBuf st i).lockHeld = false → ReachB st' pins
  | relStep (i : Nat) (st st' : BCache) (pins : Nat → Nat) :
      ReachB st pins → (brelse i st).1 = Except.ok st' → ReachB st' pins
  | pinStep (i : Nat) (st : BCache) (pins : Nat → Nat) :
      ReachB st pins → i < st.bufs.length →
      ReachB (bpin i st).1 (Function.update pins i (pins i + 1))
  | unpinStep (i : Nat) (st : BCache) (pins : Nat → Nat) :
      ReachB st pins → 1 ≤ pins i →
      ReachB (bunpin i st).1 (Function.update pins i (pins i - 1))

/-- C5 amended: a double release (release without the sleeplock held)
is reproducibly caught as the fatal "brelse" panic; and under the
balanced protocol, every slot's reference count equals its outstanding
pins plus its hold bit, hence never goes negative.  The claim as stated
fails only because an unpin that matches no pin silently decrements,
after which a release takes the count to -1 without any panic (see the
counterexample). -/
theorem C5_refcnt_nonneg_balanced :
    (∀ st i, (getBuf st i).lockHeld = false →
      (brelse i st).1 = Except.error "brelse") ∧
    (∀ st pins, ReachB st pins → ∀ i,
      (getBuf st i).refcnt
        = (pins i : Int) + (if (getBuf st i).lockHeld then 1 else 0) ∧
      0 ≤ (getBuf st i).refcnt) := by
  refine ⟨fun st i h => by rw [brelse_not_held h], ?_⟩
  have main : ∀ st pins, ReachB st pins → ∀ i,
      (getBuf st i).refcnt
        = (pins i : Int) + (if (getBuf st i).lockHeld then 1 else 0) := by
    intro st pins hr
    induction hr with
    | init n =>
        intro i
        simp [getBuf_binit, default]
    | readStep disk dev bl i st st2 pins hr hb hnl ih =>
        obtain ⟨st1, hbg, hcase⟩ := bread_ok_bget hb
        have hmid : ∀ k, (getBuf st1 k).refcnt
            = (pins k : Int)
              + (if (getBuf st1 k).lockHeld then 1 else 0) := by
          cases hs : scanBucket dev bl st with
          | some m =>
              rw [bget_hit_eq hs] at hbg
              simp only [Except.ok.injEq, Prod.mk.injEq] at hbg
              obtain ⟨hmi, hst1⟩ := hbg
              subst hmi
              intro k
              rw [← hst1, getBuf_setBuf]
              by_cases hc : k = m ∧ m < st.bufs.length
              · rw [if_pos hc]
                have hihi := ih m
                rw [hnl] at hihi
                simp only [if_false, Bool.false_eq_true] at hihi
                simp only [hc.1]
                simp [hihi]
              · rw [if_neg hc]
                exact ih k
          | none =>
              cases ht : takeFree st with
              | some m =>
                  have hrc0 := (takeFree_some ht).2
                  have hpm : (pins m : Int) = 0 := by
                    have hihm := ih m
                    have hpge : (0 : Int) ≤ (pins m : Int) :=
                      Int.natCast_nonneg _
                    by_cases hl : (getBuf st m).lockHeld = true
                    · rw [hl] at hihm
                      simp at hihm
                      omega
                    · have hl2 : (getBuf st m).lockHeld = false := by
                        revert hl
                        cases (getBuf st m).lockHeld <;> simp
                      rw [hl2] at hihm
                      simp at hihm
                      omega
                  by_cases hlt : m < st.bufs.length
                  · have hparts := bget_miss_parts hs ht hlt
                    have hmi : i = m := by
                      rw [hparts.1] at hbg
                      simp only [Except.ok.injEq, Prod.mk.injEq] at hbg
                      exact hbg.1.symm
                    subst hmi
                    have hst1 : st1 = getIdxSt (bget dev bl st).1 := by
                      rw [hbg]
                      rfl
                    subst hst1
                    intro k
                    by_cases hki : k = i
                    · subst hki
                      rw [hparts.2.2.2.2.1]
                      simp [hpm]
                    · rw [hparts.2.2.2.2.2 k hki]
                      exact ih k
                  · rw [bget_miss_eq hs ht] at hbg
                    simp only [Except.ok.injEq, Prod.mk.injEq] at hbg
                    obtain ⟨hmi, hst1⟩ := hbg
                    subst hmi
                    have hoob : st.bufs.length ≤ m := Nat.le_of_not_lt hlt
                    have hbufs : st1.bufs = st.bufs := by
                      rw [← hst1]
                      show (((st.bufs.set m _).set m _) : List Buf)
                        = st.bufs
                      rw [list_set_oob _ _ _
                          (by rw [List.length_set]; exact hoob),
                        list_set_oob _ _ _ hoob]
                    intro k
                    have hgb : getBuf st1 k = getBuf st k := by
                      simp [getBuf, hbufs]
                    rw [hgb]
                    exact ih k
              | none =>
                  rw [bget_exhaust_eq hs ht] at hbg
                  simp at hbg
        intro j
        rcases hcase with ⟨-, rfl⟩ | ⟨-, rfl⟩
        · exact hmid j
        · rw [getBuf_setBuf]
          by_cases hc : j = i ∧ i < st1.bufs.length
          · rw [if_pos hc]
            simp only [hc.1]
            exact hmid i
          · rw [if_neg hc]
            exact hmid j
    | relStep i st st2 pins hr hb ih =>
        have hh : (getBuf st i).lockHeld = true := by
          by_contra hcon
          have hh2 : (getBuf st i).lockHeld = false := by
            revert hcon
            cases (getBuf st i).lockHeld <;> simp
          rw [brelse_not_held hh2] at hb
          simp at hb
        have hst2 : st2 = getSt (brelse i st).1 := by
          rw [hb]
          rfl
        subst hst2
        have hbufs : getBuf (getSt (brelse i st).1) i
            = { getBuf st i with
                  lockHeld := false
                  refcnt := (getBuf st i).refcnt - 1 } ∧
            ∀ j, j ≠ i →
              getBuf (getSt (brelse i st).1) j = getBuf st j := by
          by_cases hz : (getBuf st i).refcnt - 1 = 0
          · exact ⟨(brelse_zero_parts hh hz).2.2.2.2.1,
              (brelse_zero_parts hh hz).2.2.2.2.2⟩
          · exact ⟨(brelse_pos_parts hh hz).2.2.2.2.1,
              (brelse_pos_parts hh hz).2.2.2.2.2⟩
        intro j
        by_cases hji : j = i
        · subst hji
          rw [hbufs.1]
          have hihj := ih j
          rw [hh] at hihj
          simp at hihj ⊢
          omega
        · rw [hbufs.2 j hji]
          exact ih j
    | pinStep i st pins hr hlt ih =>
        obtain ⟨hbk, hfl, hlen, hgi, hgo⟩ := bpin_parts i st hlt
        intro j
        by_cases hji : j = i
        · subst hji
          rw [hgi, Function.update_same]
          have hihj := ih j
          simp
          omega
        · rw [hgo j hji, Function.update_noteq hji]
          exact ih j
    | unpinStep i st pins hr hp ih =>
        have hihi := ih i
        have hrcpos : (getBuf st i).refcnt ≠ 0 := by
          have hpge : (1 : Int) ≤ (pins i : Int) := by
            exact_mod_cast hp
          by_cases hl : (getBuf st i).lockHeld = true
          · rw [hl] at hihi
            simp at hihi
            omega
          · have hl2 : (getBuf st i).lockHeld = false := by
              revert hl
              cases (getBuf st i).lockHeld <;> simp
            rw [hl2] at hihi
            simp at hihi
            omega
        have hlt := lt_length_of_refcnt_ne hrcpos
        obtain ⟨hbk, hfl, hlen, hgi, hgo⟩ := bunpin_parts i st hlt
        intro j
        by_cases hji : j = i
        · subst hji
          rw [hgi, Function.update_same]
          simp
          omega
        · rw [hgo j hji, Function.update_noteq hji]
          exact ih j
  intro st pins hr i
  have h := main st pins hr i
  refine ⟨h, ?_⟩
  rw [h]
  have hp : (0 : Int) ≤ (pins i : Int) := Int.natCast_nonneg _
  by_cases hl : (getBuf st i).lockHeld = true <;> simp [hl] <;> omega

theorem C5_refcnt_witness :
    0 ≤ (getBuf stW1 0).refcnt ∧
    (brelse 0 (binit 1)).1 = Except.error "brelse" := by
  have hrb : ReachB stW1 (fun _ => 0) :=
    ReachB.readStep diskW 1 1 0 (binit 1) stW1 (fun _ => 0)
      (ReachB.init 1) bread_stW1 rfl
  exact ⟨(C5_refcnt_nonneg_balanced.2 stW1 (fun _ => 0) hrb 0).2,
    C5_refcnt_nonneg_balanced.1 (binit 1) 0 rfl⟩

/-- Inductive core of the exhaustion scenario: from a state whose
indexed pairs all lie in `S`, fetching pairwise-distinct pairs disjoint
from `S` succeeds while the freelist lasts, and panics with
"bget: no buffers" as soon as the requests outnumber the free slots. -/
theorem breadSeq_exhaust (disk : Nat → Nat → Nat) :
    ∀ (ps : List (Nat × Nat)) (st : BCache) (S : List (Nat × Nat)),
      Inv st →
      (∀ h i, i ∈ st.buckets h →
        ((getBuf st i).dev, (getBuf st i).blockno) ∈ S) →
      (∀ p ∈ ps, p ∉ S) → ps.Nodup →
      (ps.length ≤ st.freelist.length →
        exOk (breadSeq disk ps st) = true) ∧
      (st.freelist.length < ps.length →
        breadSeq disk ps st = Except.error "bget: no buffers") := by
  intro ps
  induction ps with
  | nil =>
      intro st S hi hcached hnew hnodup
      refine ⟨fun _ => rfl, fun hlt => ?_⟩
      simp at hlt
  | cons p ps ih =>
      intro st S hi hcached hnew hnodup
      have hscan : scanBucket p.1 p.2 st = none := by
        simp only [scanBucket]
        apply List.find?_eq_none.mpr
        intro j hj
        have hp := hcached _ j hj
        have hnp : p ∉ S := hnew p (List.mem_cons_self p ps)
        intro hpred
        simp only [Bool.and_eq_true, beq_iff_eq] at hpred
        apply hnp
        have hpair : ((getBuf st j).dev, (getBuf st j).blockno) = p := by
          cases p
          simp [hpred.1, hpred.2]
        rw [← hpair]
        exact hp
      cases hfl : st.freelist with
      | nil =>
          have ht : takeFree st = none := by
            simp [takeFree, hfl]
          have hbe : (bget p.1 p.2 st).1
              = Except.error "bget: no buffers" := by
            rw [bget_exhaust_eq hscan ht]
          have hbre :=
            @bread_err_of_bget disk p.1 p.2 "bget: no buffers" st hbe
          refine ⟨fun hle => ?_, fun _ => ?_⟩
          · simp at hle
          · have h1 : (bread disk p.1 p.2 st).1
                = Except.error "bget: no buffers" := by
              rw [hbre]
            simp [breadSeq, h1]
      | cons f rest =>
          have hfmem : f ∈ st.freelist := by
            rw [hfl]
            exact List.mem_cons_self f rest
          have hz : (getBuf st f).refcnt = 0 := (hi.hfree f hfmem).1
          have ht : takeFree st = some f := takeFree_head hfl hz
          have hflt : f < st.bufs.length := hi.hmemF f hfmem
          have hparts := bget_miss_parts hscan ht hflt
          have hv : (getBuf (getIdxSt (bget p.1 p.2 st).1) f).valid
              = false := by
            rw [hparts.2.2.2.2.1]
          have hbreq := @bread_eq_of_bget disk p.1 p.2 f st
            (getIdxSt (bget p.1 p.2 st).1) hparts.1
          rw [if_neg (by simp [hv])] at hbreq
          have h1 : (bread disk p.1 p.2 st).1
              = Except.ok (f, setBuf (getIdxSt (bget p.1 p.2 st).1) f
                  (fun b => { b with valid := true, data := disk p.1 p.2 })) := by
            rw [hbreq]
          have hstep : breadSeq disk (p :: ps) st
              = breadSeq disk ps (setBuf (getIdxSt (bget p.1 p.2 st).1) f
                  (fun b => { b with valid := true, data := disk p.1 p.2 })) := by
            simp [breadSeq, h1]
          have hi2 : Inv (setBuf (getIdxSt (bget p.1 p.2 st).1) f
              (fun b => { b with valid := true, data := disk p.1 p.2 })) := Inv_bread hi h1
          have hfl2 : (setBuf (getIdxSt (bget p.1 p.2 st).1) f
              (fun b => { b with valid := true, data := disk p.1 p.2 })).freelist = rest := by
            show (getIdxSt (bget p.1 p.2 st).1).freelist = rest
            rw [hparts.2.2.1, hfl]
            exact List.erase_cons_head f rest
          have hlen2 : (getIdxSt (bget p.1 p.2 st).1).bufs.length
              = st.bufs.length := hparts.2.2.2.1
          have hcached2 : ∀ h j,
              j ∈ (setBuf (getIdxSt (bget p.1 p.2 st).1) f
                (fun b => { b with valid := true, data := disk p.1 p.2 })).buckets h →
              ((getBuf (setBuf (getIdxSt (bget p.1 p.2 st).1) f
                  (fun b => { b with valid := true, data := disk p.1 p.2 })) j).dev,
               (getBuf (setBuf (getIdxSt (bget p.1 p.2 st).1) f
                  (fun b => { b with valid := true, data := disk p.1 p.2 })) j).blockno)
                ∈ p :: S := by
            intro h j hj
            have hbuck : (setBuf (getIdxSt (bget p.1 p.2 st).1) f
                (fun b => { b with valid := true, data := disk p.1 p.2 })).buckets
                = Function.update st.buckets (hash p.2)
                    (f :: st.buckets (hash p.2)) := by
              show (getIdxSt (bget p.1 p.2 st).1).buckets = _
              exact hparts.2.1
            rw [hbuck] at hj
            by_cases hh : h = hash p.2
            · subst hh
              rw [Function.update_same] at hj
              rcases List.mem_cons.mp hj with hjf | hjmem
              · subst hjf
                have hgj : getBuf (setBuf (getIdxSt (bget p.1 p.2 st).1) j
                    (fun b => { b with valid := true, data := disk p.1 p.2 })) j
                    = { getBuf (getIdxSt (bget p.1 p.2 st).1) j with
                          valid := true
                          data := disk p.1 p.2 } :=
                  getBuf_setBuf_same _ j _ (by rw [hlen2]; exact hflt)
                rw [hgj, hparts.2.2.2.2.1]
                simp
              · have hjf : j ≠ f := by
                  intro he
                  subst he
                  exact hi.not_mem_bucket_of_mem_free j hfmem _ hjmem
                have hgj : getBuf (setBuf (getIdxSt (bget p.1 p.2 st).1) f
                    (fun b => { b with valid := true, data := disk p.1 p.2 })) j
                    = getBuf st j := by
                  rw [getBuf_setBuf_ne _ f j _ hjf,
                    hparts.2.2.2.2.2 j hjf]
                rw [hgj]
                exact List.mem_cons_of_mem _ (hcached _ j hjmem)
            · rw [Function.update_noteq hh] at hj
              have hjf : j ≠ f := by
                intro he
                subst he
                exact hi.not_mem_bucket_of_mem_free j hfmem _ hj
              have hgj : getBuf (setBuf (getIdxSt (bget p.1 p.2 st).1) f
                  (fun b => { b with valid := true, data := disk p.1 p.2 })) j
                  = getBuf st j := by
                rw [getBuf_setBuf_ne _ f j _ hjf, hparts.2.2.2.2.2 j hjf]
              rw [hgj]
              exact List.mem_cons_of_mem _ (hcached _ j hj)
          have hnew2 : ∀ q ∈ ps, q ∉ p :: S := by
            intro q hq hmem
            rcases List.mem_cons.mp hmem with he | hS
            · subst he
              exact (List.nodup_cons.mp hnodup).1 hq
            · exact hnew q (List.mem_cons_of_mem p hq) hS
          have hnodup2 : ps.Nodup := (List.nodup_cons.mp hnodup).2
          obtain ⟨ihA, ihB⟩ := ih (setBuf (getIdxSt (bget p.1 p.2 st).1) f
            (fun b => { b with valid := true, data := disk p.1 p.2 }))
            (p :: S) hi2 hcached2 hnew2 hnodup2
          refine ⟨fun hle => ?_, fun hlt2 => ?_⟩
          · rw [hstep]
            apply ihA
            rw [hfl2]
            simp at hle ⊢
            omega
          · rw [hstep]
            apply ihB
            rw [hfl2]
            simp at hlt2 ⊢
            omega

/-- C7: a lookup miss when the recycle pool holds no slot with
reference count zero panics with "bget: no buffers" rather than
waiting or returning an error value; and with a pool of K slots, K+1
fetches of pairwise distinct blocks from the freshly initialised cache
succeed on the first K and deterministically hit the fatal exhaustion
panic on the (K+1)-th. -/
theorem C7_exhaustion :
    (∀ dev bl st, scanBucket dev bl st = none → takeFree st = none →
      (bget dev bl st).1 = Except.error "bget: no buffers") ∧
    (∀ K disk (ps : List (Nat × Nat)), ps.length = K + 1 → ps.Nodup →
      exOk (breadSeq disk (ps.take K) (binit K)) = true ∧
      breadSeq disk ps (binit K)
        = Except.error "bget: no buffers") := by
  constructor
  · intro dev bl st hs ht
    rw [bget_exhaust_eq hs ht]
  · intro K disk ps hlen hnodup
    have hinit := Inv_binit K
    have hcached : ∀ h i, i ∈ (binit K).buckets h →
        ((getBuf (binit K) i).dev, (getBuf (binit K) i).blockno)
          ∈ ([] : List (Nat × Nat)) := by
      intro h i hi
      simp [binit] at hi
    have hflen : (binit K).freelist.length = K := by
      simp [binit]
    constructor
    · have htake := (breadSeq_exhaust disk (ps.take K) (binit K) []
        hinit hcached (by intro q hq hmem; simp at hmem)
        (hnodup.sublist (List.take_sublist K ps))).1
      apply htake
      rw [hflen]
      simp [List.length_take]
    · have hfull := (breadSeq_exhaust disk ps (binit K) []
        hinit hcached (by intro q hq hmem; simp at hmem) hnodup).2
      apply hfull
      rw [hflen]
      omega

theorem C7_exhaustion_witness :
    (bget 1 1 (binit 0)).1 = Except.error "bget: no buffers" ∧
    exOk (breadSeq diskW ([(1, 1), (1, 2)].take 1) (binit 1)) = true ∧
    breadSeq diskW [(1, 1), (1, 2)] (binit 1)
      = Except.error "bget: no buffers" := by
  have h2 := C7_exhaustion.2 1 diskW [(1, 1), (1, 2)] rfl (by decide)
  exact ⟨C7_exhaustion.1 1 1 (binit 0) rfl rfl, h2.1, h2.2⟩

/-- C8: recycle-pool reuse is last-in-first-out.  A miss takes the
first zero-reference slot from the freelist head, and a release that
reaches zero pushes at the head: releasing slot a then slot b (each
with reference count one) leaves the freelist b, a, ...; two subsequent
misses on uncached blocks hand out b first, then a. -/
theorem C8_lifo_reuse :
    (∀ st i rest, st.freelist = i :: rest →
      (getBuf st i).refcnt = 0 → takeFree st = some i) ∧
    (∀ st a b d1 bl1 d2 bl2, Inv st → a ≠ b →
      (getBuf st a).lockHeld = true → (getBuf st a).refcnt = 1 →
      (getBuf st b).lockHeld = true → (getBuf st b).refcnt = 1 →
      (∀ h j, j ∈ st.buckets h →
        ((getBuf st j).dev ≠ d1 ∨ (getBuf st j).blockno ≠ bl1) ∧
        ((getBuf st j).dev ≠ d2 ∨ (getBuf st j).blockno ≠ bl2)) →
      (d1, bl1) ≠ (d2, bl2) →
      ∀ st1 st2, (brelse a st).1 = Except.ok st1 →
        (brelse b st1).1 = Except.ok st2 →
        st2.freelist = b :: a :: st.freelist ∧
        ∃ st3, (bget d1 bl1 st2).1 = Except.ok (b, st3) ∧
          ∃ st4, (bget d2 bl2 st3).1 = Except.ok (a, st4)) := by
  refine ⟨fun st i rest hfl hz => takeFree_head hfl hz, ?_⟩
  intro st a b d1 bl1 d2 bl2 hi hab hla hra hlb hrb hnc hne st1 st2 h1 h2
  have halt : a < st.bufs.length := lt_length_of_lockHeld hla
  have hblt : b < st.bufs.length := lt_length_of_lockHeld hlb
  have hza : (getBuf st a).refcnt - 1 = 0 := by
    rw [hra]
    decide
  obtain ⟨hokA, hbkA, hflA, hlenA, hgiA, hgoA⟩ := brelse_zero_parts hla hza
  have heq1 : st1 = getSt (brelse a st).1 := by
    rw [h1]
    rfl
  rw [← heq1] at hbkA hflA hlenA hgiA hgoA
  have hi1 : Inv st1 := Inv_brelse hi h1
  have hgb1 : getBuf st1 b = getBuf st b := hgoA b (Ne.symm hab)
  have hlb1 : (getBuf st1 b).lockHeld = true := by
    rw [hgb1]
    exact hlb
  have hzb : (getBuf st1 b).refcnt - 1 = 0 := by
    rw [hgb1, hrb]
    decide
  obtain ⟨hokB, hbkB, hflB, hlenB, hgiB, hgoB⟩ := brelse_zero_parts hlb1 hzb
  have heq2 : st2 = getSt (brelse b st1).1 := by
    rw [h2]
    rfl
  rw [← heq2] at hbkB hflB hlenB hgiB hgoB
  have hi2 : Inv st2 := Inv_brelse hi1 h2
  -- membership of the new buckets is membership of the old, minus a, b
  have hamem : a ∈ st.buckets (hash (getBuf st a).blockno) :=
    hi.hheld a halt hla
  obtain ⟨hca1, hcaf, hcao⟩ := hi.mem_bucket_counts _ a hamem
  have hsub1 : ∀ h j, j ∈ st1.buckets h → j ∈ st.buckets h ∧ j ≠ a := by
    intro h j hj
    rw [hbkA] at hj
    by_cases hh : h = hash (getBuf st a).blockno
    · subst hh
      rw [Function.update_same] at hj
      refine ⟨List.mem_of_mem_erase hj, ?_⟩
      intro he
      subst he
      have h0 : ((st.buckets (hash (getBuf st j).blockno)).erase j).count j
          = 0 := by
        rw [List.count_erase_self]
        omega
      exact (List.count_eq_zero.mp h0) hj
    · rw [Function.update_noteq hh] at hj
      refine ⟨hj, ?_⟩
      intro he
      subst he
      exact (List.count_eq_zero.mp (hcao h hh)) hj
  have hblt1 : b < st1.bufs.length := by
    rw [hlenA]
    exact hblt
  have hbmem1 : b ∈ st1.buckets (hash (getBuf st1 b).blockno) :=
    hi1.hheld b hblt1 hlb1
  obtain ⟨hcb1, hcbf, hcbo⟩ := hi1.mem_bucket_counts _ b hbmem1
  have hsub2 : ∀ h j, j ∈ st2.buckets h →
      j ∈ st.buckets h ∧ j ≠ a ∧ j ≠ b := by
    intro h j hj
    rw [hbkB] at hj
    have hj1 : j ∈ st1.buckets h ∧ j ≠ b := by
      by_cases hh : h = hash (getBuf st1 b).blockno
      · subst hh
        rw [Function.update_same] at hj
        refine ⟨List.mem_of_mem_erase hj, ?_⟩
        intro he
        subst he
        have h0 : ((st1.buckets (hash (getBuf st1 j).blockno)).erase
            j).count j = 0 := by
          rw [List.count_erase_self]
          omega
        exact (List.count_eq_zero.mp h0) hj
      · rw [Function.update_noteq hh] at hj
        refine ⟨hj, ?_⟩
        intro he
        subst he
        exact (List.count_eq_zero.mp (hcbo h hh)) hj
    obtain ⟨hjmem, hjb⟩ := hj1
    obtain ⟨hjst, hja⟩ := hsub1 h j hjmem
    exact ⟨hjst, hja, hjb⟩
  have hg2 : ∀ j, j ≠ a → j ≠ b → getBuf st2 j = getBuf st j := by
    intro j hja hjb
    rw [hgoB j hjb, hgoA j hja]
  -- first miss: scan fails, the freelist head is b
  have hscan1 : scanBucket d1 bl1 st2 = none := by
    simp only [scanBucket]
    apply List.find?_eq_none.mpr
    intro j hj
    obtain ⟨hjst, hja, hjb⟩ := hsub2 _ j hj
    intro hpred
    simp only [Bool.and_eq_true, beq_iff_eq] at hpred
    rw [hg2 j hja hjb] at hpred
    rcases (hnc _ j hjst).1 with hd | hb2
    · exact hd hpred.1
    · exact hb2 hpred.2
  have hfl2 : st2.freelist = b :: a :: st.freelist := by
    rw [hflB, hflA]
  have hrb2 : (getBuf st2 b).refcnt = 0 := by
    rw [hgiB]
    simp
    rw [hgb1, hrb]
    decide
  have htake1 : takeFree st2 = some b := takeFree_head hfl2 hrb2
  have hblt2 : b < st2.bufs.length := by
    rw [hlenB]
    exact hblt1
  obtain ⟨hokC, hbkC, hflC, hlenC, hgiC, hgoC⟩ :=
    bget_miss_parts hscan1 htake1 hblt2
  -- second miss: scan fails again, the freelist head is now a
  have hscan2 : scanBucket d2 bl2 (getIdxSt (bget d1 bl1 st2).1)
      = none := by
    simp only [scanBucket]
    apply List.find?_eq_none.mpr
    intro j hj
    rw [hbkC] at hj
    intro hpred
    simp only [Bool.and_eq_true, beq_iff_eq] at hpred
    by_cases hh : hash bl2 = hash bl1
    · rw [hh, Function.update_same] at hj
      rcases List.mem_cons.mp hj with hjb | hjmem
      · subst hjb
        rw [hgiC] at hpred
        simp at hpred
        exact hne (by simp [hpred.1, hpred.2])
      · obtain ⟨hjst, hja, hjb⟩ := hsub2 _ j hjmem
        rw [hgoC j hjb, hg2 j hja hjb] at hpred
        rcases (hnc _ j hjst).2 with hd | hb2
        · exact hd hpred.1
        · exact hb2 hpred.2
    · rw [Function.update_noteq hh] at hj
      obtain ⟨hjst, hja, hjb⟩ := hsub2 _ j hj
      rw [hgoC j hjb, hg2 j hja hjb] at hpred
      rcases (hnc _ j hjst).2 with hd | hb2
      · exact hd hpred.1
      · exact hb2 hpred.2
  have hfl3 : (getIdxSt (bget d1 bl1 st2).1).freelist
      = a :: st.freelist := by
    rw [hflC, hfl2]
    exact List.erase_cons_head b (a :: st.freelist)
  have hra3 : (getBuf (getIdxSt (bget d1 bl1 st2).1) a).refcnt = 0 := by
    rw [hgoC a hab, hgoB a hab, hgiA]
    simp
    rw [hra]
    decide
  have htake2 : takeFree (getIdxSt (bget d1 bl1 st2).1) = some a :=
    takeFree_head hfl3 hra3
  have halt3 : a < (getIdxSt (bget d1 bl1 st2).1).bufs.length := by
    rw [hlenC, hlenB, hlenA]
    exact halt
  obtain ⟨hokD, hbkD, hflD, hlenD, hgiD, hgoD⟩ :=
    bget_miss_parts hscan2 htake2 halt3
  exact ⟨hfl2, getIdxSt (bget d1 bl1 st2).1, hokC,
    getIdxSt (bget d2 bl2 (getIdxSt (bget d1 bl1 st2).1)).1, hokD⟩

theorem C8_lifo_witness :
    (getSt (brelse 0 (getSt (brelse 1 stW2).1)).1).freelist
      = 0 :: 1 :: stW2.freelist ∧
    getIdx (bget 1 3 (getSt (brelse 0 (getSt (brelse 1 stW2).1)).1)).1
      = 0 ∧
    getIdx (bget 1 4 (getIdxSt (bget 1 3
      (getSt (brelse 0 (getSt (brelse 1 stW2).1)).1)).1)).1 = 1 := by
  have hnc : ∀ h j, j ∈ stW2.buckets h →
      ((getBuf stW2 j).dev ≠ 1 ∨ (getBuf stW2 j).blockno ≠ 3) ∧
      ((getBuf stW2 j).dev ≠ 1 ∨ (getBuf stW2 j).blockno ≠ 4) := by
    intro h j hj
    have hb : stW2.buckets
        = Function.update (Function.update
            (fun _ => ([] : List Nat)) 1 [1]) 2 [0] := rfl
    rw [hb] at hj
    by_cases h2 : h = 2
    · subst h2
      rw [Function.update_same] at hj
      simp at hj
      subst hj
      constructor <;> decide
    · rw [Function.update_noteq h2] at hj
      by_cases h1 : h = 1
      · subst h1
        rw [Function.update_same] at hj
        simp at hj
        subst hj
        constructor <;> decide
      · rw [Function.update_noteq h1] at hj
        simp at hj
  have h := C8_lifo_reuse.2 stW2 1 0 1 3 1 4 Inv_stW2 (by decide)
    rfl (by decide) rfl (by decide) hnc (by decide)
    (getSt (brelse 1 stW2).1) (getSt (brelse 0 (getSt (brelse 1 stW2).1)).1)
    rfl rfl
  obtain ⟨hfl, st3, h3, st4, h4⟩ := h
  refine ⟨hfl, ?_, ?_⟩
  · rw [h3]
    rfl
  · rw [h3]
    show getIdx (bget 1 4 st3).1 = 1
    rw [h4]
    rfl

end Bio
